import Mathlib

/-!
Verification development for the pycroscopy HDF5 writer core
(`pycroscopy/core/io/hdf_writer.py` and `pycroscopy/core/io/microdata.py`).

The Python code is shallowly embedded: the HDF5 store is an explicit
association list from absolute paths (lists of name segments, so the path
string `"/a/b"` is the list `["a", "b"]` and the root `"/"` is `[]`) to
store objects; exceptions become `Except` values that carry the store state
at raise time, since a Python exception leaves all prior mutations of the
open file in place.
-/

namespace Pycroscopy

/-- Python slice object; only `start` and `stop` are ever consulted by the
writer (`step` never is), so only those two are modelled. -/
structure PySlice where
  start : Option Int
  stop : Option Int
deriving DecidableEq

/-- Attribute values, distinguishing exactly the Python/numpy value kinds
that `clean_string_att` and the attribute-writing code inspect:
`str` (a plain python 3 string, which the source aliases with `unicode`),
`npStr` (a `numpy.str_` wide-string scalar), `bytes`, integers, `None`,
python lists, and the 0- and 1-dimensional `dtype='S'` numpy arrays that
`np.array(x, dtype='S')` produces, plus h5py region references. -/
inductive AttrVal where
  | str (s : String)
  | npStr (s : String)
  | bytes (b : String)
  | intV (n : Int)
  | noneV
  | list (xs : List AttrVal)
  | arr0S (b : String)
  | arr1S (bs : List String)
  | regionRef (ds : List String) (slices : List PySlice)

/-- Exact python runtime types, as tested by `type(x) in [...]` and
`type(att_val) == np.str_` in `clean_string_att`.  Note that `numpy.str_`
is a subclass of `str` and `numpy.bytes_` a subclass of `bytes`, but the
source compares with `type(x) in [str, unicode, bytes]`, which is an exact
comparison, so the numpy scalar types are distinct members here. -/
inductive PyType where
  | pyStr
  | pyNpStr
  | pyBytes
  | pyNpBytes
  | pyInt
  | pyNone
  | pyList
  | pyNdArray
  | pyRegionRef
deriving DecidableEq

/-- Errors raised by the embedded code.  Each constructor names the Python
exception (or the unmodelled corner) it stands for. -/
inductive Err where
  | typeError
  | missingParent
  | keyError
  | duplicateName
  | allocFailure
  | valueError
  | assertFailure
  | regionRefMismatch
  | indexError
  | cleanFailed
  | labelsNotDict
  | dictValuedAttr
  | noneFileAttr
  | fuelOut
deriving DecidableEq

/-- The exact python type of a value, as `type(v)` sees it. -/
def typeOf : AttrVal → PyType
  | .str _ => .pyStr
  | .npStr _ => .pyNpStr
  | .bytes _ => .pyBytes
  | .intV _ => .pyInt
  | .noneV => .pyNone
  | .list _ => .pyList
  | .arr0S _ => .pyNdArray
  | .arr1S _ => .pyNdArray
  | .regionRef _ _ => .pyRegionRef

/-- Whether `isinstance(v, collections.Iterable)` holds: strings (including
`numpy.str_`), bytes, lists and numpy arrays are iterable; integers, `None`
and region references are not. -/
def isIterable : AttrVal → Bool
  | .str _ => true
  | .npStr _ => true
  | .bytes _ => true
  | .list _ => true
  | .arr0S _ => true
  | .arr1S _ => true
  | .intV _ => false
  | .noneV => false
  | .regionRef _ _ => false

/-- The exact python types of the elements obtained by iterating a value:
iterating any `str` (or `numpy.str_`) yields plain one-character `str`
values, iterating python-3 `bytes` yields `int`s, iterating a 1-d
`dtype='S'` array yields `numpy.bytes_` scalars, and iterating a
0-dimensional array raises `TypeError` (modelled as `.error`). -/
def elemTypes : AttrVal → Except Unit (List PyType)
  | .str s => .ok (s.data.map fun _ => .pyStr)
  | .npStr s => .ok (s.data.map fun _ => .pyStr)
  | .bytes b => .ok (b.data.map fun _ => .pyInt)
  | .list xs => .ok (xs.map typeOf)
  | .arr1S bs => .ok (bs.map fun _ => .pyNpBytes)
  | .arr0S _ => .error ()
  | .intV _ => .ok []
  | .noneV => .ok []
  | .regionRef _ _ => .ok []

/-- Byte-string content that numpy's `dtype='S'` coercion produces for one
element (numpy stringifies scalars, so `None` becomes `b'None'` and an
integer its decimal text).  Nested sequences would give multi-dimensional
arrays, which no code path of the writer reaches; they are mapped to a
placeholder. -/
def toSBytes : AttrVal → String
  | .str s => s
  | .npStr s => s
  | .bytes b => b
  | .intV n => toString n
  | .noneV => "None"
  | .list _ => "nested"
  | .arr0S b => b
  | .arr1S _ => "nested"
  | .regionRef _ _ => "ref"

/-- The result of `np.array(v, dtype='S')`: a string scalar becomes a
0-dimensional `S` array, a list becomes a 1-dimensional `S` array with each
element coerced to bytes. -/
def toSArray : AttrVal → AttrVal
  | .str s => .arr0S s
  | .npStr s => .arr0S s
  | .bytes b => .arr0S b
  | .list xs => .arr1S (xs.map toSBytes)
  | .arr0S b => .arr0S b
  | .arr1S bs => .arr1S bs
  | v => .arr0S (toSBytes v)

/-- The fall-through tail of `clean_string_att`: the
`type(att_val) == np.str_` test followed by returning the value unchanged. -/
def cleanTail : AttrVal → Except Err AttrVal
  | .npStr s => .ok (.str s)
  | v => .ok v

/-- Model of `clean_string_att` (hdf_writer.py lines 425-450): inside a
`try` that converts any `TypeError` into a raised `TypeError`, the value is
returned unchanged when its exact type is `str`; an iterable any of whose
elements has exact type `str` or `bytes` is replaced by
`np.array(value, dtype='S')`; a `numpy.str_` scalar that fell through is
converted with `str(...)`; anything else is returned unchanged. -/
def clean (v : AttrVal) : Except Err AttrVal :=
  if isIterable v then
    if typeOf v = .pyStr then .ok v
    else
      match elemTypes v with
      | .error _ => .error .cleanFailed
      | .ok ts =>
        if ts.any (fun t => t == .pyStr || t == .pyBytes) then .ok (toSArray v)
        else cleanTail v
  else cleanTail v

/-- Claim C9 (counterexample): the attribute normalizer is not idempotent on
scalar wide-string inputs.  A nonempty `numpy.str_` scalar is iterable and
its characters have exact type `str`, so the first normalization returns
the 0-dimensional byte array `np.array(x, dtype='S')`; normalizing that
array again iterates a 0-dimensional array, which raises `TypeError`, so
`normalize (normalize x)` raises instead of equalling `normalize x`. -/
theorem clean_not_idempotent_on_wide_string :
    clean (.npStr "a") = .ok (.arr0S "a") ∧
    (clean (.npStr "a") >>= clean) = .error .cleanFailed ∧
    (clean (.npStr "a") >>= clean) ≠ clean (.npStr "a") := by
  refine ⟨rfl, rfl, ?_⟩
  intro h
  have h2 : (Except.error Err.cleanFailed : Except Err AttrVal)
      = .ok (.arr0S "a") := h
  exact Except.noConfusion h2

/-- Claim C9 (amended): the normalizer is idempotent on plain text values
and on every python-list input (in particular on mixed string/byte
collections, which normalize to a 1-d byte array that a second pass leaves
unchanged because its elements have exact type `numpy.bytes_`, not
`bytes`); on scalar wide strings it is idempotent only for the empty
string, which takes the `str(...)` branch. -/
theorem clean_idempotent_amended :
    (∀ s : String, (clean (.str s) >>= clean) = clean (.str s)) ∧
    (∀ xs : List AttrVal, (clean (.list xs) >>= clean) = clean (.list xs)) ∧
    ((clean (.npStr "") >>= clean) = clean (.npStr "")) := by
  refine ⟨fun s => rfl, fun xs => ?_, rfl⟩
  by_cases h : (xs.map typeOf).any (fun t => t == .pyStr || t == .pyBytes)
  · have h1 : clean (.list xs) = .ok (.arr1S (xs.map toSBytes)) := by
      simp [clean, isIterable, typeOf, elemTypes, h, toSArray]
    rw [h1]
    show clean (.arr1S (xs.map toSBytes)) = .ok (.arr1S (xs.map toSBytes))
    simp [clean, isIterable, typeOf, elemTypes, cleanTail, List.any_map,
      Function.comp]
  · have h1 : clean (.list xs) = .ok (.list xs) := by
      simp [clean, isIterable, typeOf, elemTypes, h, cleanTail]
    rw [h1]
    show clean (.list xs) = .ok (.list xs)
    exact h1

/-- Payload array: an n-dimensional numpy array, abstracted to its shape,
dtype name and flattened contents. -/
structure NArr where
  shape : List Nat
  dtype : String
  elems : List Int
deriving DecidableEq

/-- A numpy shape viewed as a tuple of (always defined) python ints. -/
def intShape (a : NArr) : List (Option Int) := a.shape.map (fun n => some (n : Int))

/-- A descriptor attribute value: either an ordinary value, or the labels
dictionary (region-name to slice-tuple mapping) that the writer
special-cases under the key `labels`. -/
inductive MAttr where
  | plain (v : AttrVal)
  | labels (regions : List (String × List PySlice))

/-- Model of `_valid_shapes` in `MicroDataset.__init__`: every item must be
a positive integer, or `None` when `none_ok` is set; the empty tuple
passes (as `np.all([])` is true). -/
def validShapes (param : Option (List (Option Int))) (noneOk : Bool) : Bool :=
  match param with
  | none => true
  | some items => items.all (fun it =>
      match it with
      | none => noneOk
      | some v => decide (0 < v))

/-- The per-axis loop of the chunking check: `ch > mx` raises for some axis
unless every chunk entry is at most the corresponding defined bound. -/
def chunkFits (chs mxs : List (Option Int)) : Bool :=
  (chs.zip mxs).all (fun pr =>
    match pr.1, pr.2 with
    | some c, some m => decide (c ≤ m)
    | _, _ => true)

/-- A leaf (dataset) descriptor after construction, with the fields that
`MicroDataset.__init__` stores on `self`. -/
structure MicroDset where
  name : String
  parent : List String
  data : Option NArr
  dtype : Option String
  compression : Option String
  chunking : Option (List (Option Int))
  resizable : Bool
  maxshape : Option (List (Option Int))
  attrs : List (String × MAttr)

/-- A raise guard: raise `e` when `b` holds, else continue. -/
def guardE (b : Bool) (e : Err) : Except Err Unit :=
  if b then .error e else .ok ()

/-- The maxshape block of `MicroDataset.__init__` (lines 246-256): with a
payload, the dimensionalities must agree and no defined maxshape entry may
be smaller than the payload's extent; without a payload, no maxshape entry
may be `None`. -/
def maxshapeBad (maxshape : Option (List (Option Int))) (data : Option NArr) :
    Bool :=
  match maxshape, data with
  | some ms, some a =>
    decide (a.shape.length ≠ ms.length) ||
      ((intShape a).zip ms).any (fun pr =>
        match pr.1, pr.2 with
        | some d, some m => decide (m < d)
        | _, _ => false)
  | some ms, none => ms.any (fun it => it.isNone)
  | none, _ => false

/-- The shape the chunking block compares against (lines 263-266): maxshape
when given, else the payload's shape.  The double-`none` case is
unreachable because both being absent was rejected earlier. -/
def codeDataShape (maxshape : Option (List (Option Int))) (data : Option NArr) :
    List (Option Int) :=
  match maxshape with
  | some ms => ms
  | none =>
    match data with
    | some a => intShape a
    | none => []

/-- The chunking block of `MicroDataset.__init__` (lines 258-275): no
`None` entries (already excluded by the earlier assert, kept for
fidelity), dimensionality must match the authoritative shape, and every
chunk entry must be at most the corresponding defined bound. -/
def chunkBad (chunking maxshape : Option (List (Option Int)))
    (data : Option NArr) : Bool :=
  match chunking with
  | none => false
  | some chs =>
    chs.any (fun it => it.isNone) ||
      decide ((codeDataShape maxshape data).length ≠ chs.length) ||
      !(chunkFits chs (codeDataShape maxshape data))

/-- Model of `MicroDataset.__init__` (microdata.py lines 135-295): the
defaulting of `parent` to the root, the two `_valid_shapes` assertions, the
compression whitelist, the rejection of data and maxshape both absent, the
maxshape/data dimensionality and bound checks, and the chunking
dimensionality and bound checks against the authoritative shape (maxshape
when given, else the payload's shape), in source order.  `maxshape` and
`chunking` are received after `_make_iterable`, so scalars are already
one-element tuples.  Dtype inheritance from the payload is applied last. -/
def mkMicroDataset (name : String) (parent : Option (List String))
    (data : Option NArr) (dtype : Option String) (compression : Option String)
    (chunking : Option (List (Option Int))) (resizable : Bool)
    (maxshape : Option (List (Option Int))) (attrs : List (String × MAttr)) :
    Except Err MicroDset := do
  guardE (!(validShapes maxshape true)) .assertFailure
  guardE (!(validShapes chunking false)) .assertFailure
  guardE (decide (compression ∉
    ([none, some "gzip", some "lzf"] : List (Option String)))) .valueError
  guardE (data.isNone && maxshape.isNone) .valueError
  guardE (maxshapeBad maxshape data) .valueError
  guardE (chunkBad chunking maxshape data) .valueError
  .ok { name := name
        parent := parent.getD []
        data := data
        dtype := (match data, dtype with
                  | some a, none => some a.dtype
                  | _, d => d)
        compression := compression
        chunking := chunking
        resizable := resizable
        maxshape := maxshape
        attrs := attrs }

/-- The authoritative shape a chunk tuple is checked against: `max_shape`
when given, else the payload's shape. -/
def authShape (maxshape : Option (List (Option Int))) (data : Option NArr) :
    Option (List (Option Int)) :=
  match maxshape with
  | some ms => some ms
  | none => data.map intShape

theorem get?_zip_of_get? {α β : Type} (l₁ : List α) (l₂ : List β) (i : Nat)
    (a : α) (b : β) (h₁ : l₁.get? i = some a) (h₂ : l₂.get? i = some b) :
    (l₁.zip l₂).get? i = some (a, b) := by
  induction l₁ generalizing l₂ i with
  | nil => simp at h₁
  | cons x xs ih =>
    cases l₂ with
    | nil => simp at h₂
    | cons y ys =>
      cases i with
      | zero => simp_all
      | succ j =>
        simp only [List.get?_cons_succ] at h₁ h₂
        simpa using ih ys j h₁ h₂

theorem chunkFits_le {chs sh : List (Option Int)} (hf : chunkFits chs sh = true)
    {i : Nat} {c m : Int} (hc : chs.get? i = some (some c))
    (hm : sh.get? i = some (some m)) : c ≤ m := by
  have hz : (chs.zip sh).get? i = some (some c, some m) :=
    get?_zip_of_get? chs sh i _ _ hc hm
  have hmem : (some c, some m) ∈ chs.zip sh := List.get?_mem hz
  have := List.all_eq_true.mp hf _ hmem
  simpa using this

theorem guardE_bind_ok {α : Type} {b : Bool} {e : Err}
    {f : Unit → Except Err α} {x : α} (h : (guardE b e >>= f) = .ok x) :
    b = false ∧ f () = .ok x := by
  cases b with
  | true => simp [guardE, Bind.bind, Except.bind] at h
  | false =>
    refine ⟨rfl, ?_⟩
    simpa [guardE, Bind.bind, Except.bind] using h

/-- A successful construction implies the compression value was allowed and
every chunk dimension fits within the authoritative shape, which also had
matching dimensionality. -/
theorem mk_dataset_ok_valid (name : String) (parent : Option (List String))
    (data : Option NArr) (dtype : Option String) (compression : Option String)
    (chunking : Option (List (Option Int))) (resizable : Bool)
    (maxshape : Option (List (Option Int))) (attrs : List (String × MAttr))
    (d : MicroDset)
    (h : mkMicroDataset name parent data dtype compression chunking resizable
          maxshape attrs = .ok d) :
    compression ∈ ([none, some "gzip", some "lzf"] : List (Option String)) ∧
    (∀ chs sh, chunking = some chs → authShape maxshape data = some sh →
      chs.length = sh.length ∧ chunkFits chs sh = true) := by
  unfold mkMicroDataset at h
  obtain ⟨h1, h⟩ := guardE_bind_ok h
  obtain ⟨h2, h⟩ := guardE_bind_ok h
  obtain ⟨h3, h⟩ := guardE_bind_ok h
  obtain ⟨h4, h⟩ := guardE_bind_ok h
  obtain ⟨h5, h⟩ := guardE_bind_ok h
  obtain ⟨h6, _⟩ := guardE_bind_ok h
  refine ⟨not_not.mp (of_decide_eq_false h3), ?_⟩
  intro chs sh hchunk hauth
  subst hchunk
  have hsh : codeDataShape maxshape data = sh := by
    unfold authShape at hauth
    unfold codeDataShape
    cases maxshape with
    | some ms => simpa using hauth
    | none =>
      cases data with
      | some a => simpa using hauth
      | none => simp at hauth
  unfold chunkBad at h6
  rw [hsh] at h6
  simp only [Bool.or_eq_false_iff, decide_eq_false_iff_not,
    Decidable.not_not] at h6
  exact ⟨h6.1.2.symm, by simpa using h6.2⟩

/-- Claim C8: any leaf construction whose compression value is disallowed,
whose chunk tuple's dimensionality differs from the authoritative shape
(max_shape when given, else the payload's shape), or whose chunk dimension
exceeds a defined bound of that shape, fails with a fatal error at
descriptor-construction time.  The constructor takes no store handle, so no
store mutation can have occurred. -/
theorem mk_dataset_rejects_invalid_specs (name : String)
    (parent : Option (List String)) (data : Option NArr) (dtype : Option String)
    (compression : Option String) (chunking : Option (List (Option Int)))
    (resizable : Bool) (maxshape : Option (List (Option Int)))
    (attrs : List (String × MAttr))
    (h : compression ∉ ([none, some "gzip", some "lzf"] : List (Option String))
      ∨ (∃ chs sh, chunking = some chs ∧ authShape maxshape data = some sh ∧
          chs.length ≠ sh.length)
      ∨ (∃ chs sh i c m, chunking = some chs ∧ authShape maxshape data = some sh ∧
          chs.get? i = some (some c) ∧ sh.get? i = some (some m) ∧ m < c)) :
    ∃ e, mkMicroDataset name parent data dtype compression chunking resizable
          maxshape attrs = .error e := by
  cases hr : mkMicroDataset name parent data dtype compression chunking
      resizable maxshape attrs with
  | error e => exact ⟨e, rfl⟩
  | ok d =>
    exfalso
    have hv := mk_dataset_ok_valid name parent data dtype compression chunking
      resizable maxshape attrs d hr
    rcases h with hbad | ⟨chs, sh, hc, ha, hne⟩ | ⟨chs, sh, i, c, m, hc, ha, hgc, hgm, hlt⟩
    · exact hbad hv.1
    · exact hne ((hv.2 chs sh hc ha).1)
    · have hle := chunkFits_le ((hv.2 chs sh hc ha).2) hgc hgm
      omega

/-- Witness for claim C8: a chunk dimension of 8 against a max-shape bound
of 4 is rejected at construction. -/
theorem mk_dataset_rejects_invalid_specs_witness :
    ∃ e, mkMicroDataset "d" none none none none (some [some 8]) false
          (some [some 4]) [] = .error e :=
  mk_dataset_rejects_invalid_specs "d" none none none none (some [some 8])
    false (some [some 4]) []
    (Or.inr (Or.inr ⟨[some 8], [some 4], 0, 8, 4, rfl, rfl, rfl, rfl, by decide⟩))

/-- Python dict assignment on an attribute mapping (keys are unique in a
python dict, so the association list is keyed by first occurrence): update
the value in place if the key is present, else append. -/
def insertAttr (l : List (String × MAttr)) (k : String) (v : MAttr) :
    List (String × MAttr) :=
  match l with
  | [] => [(k, v)]
  | e :: es => if e.1 = k then (k, v) :: es else e :: insertAttr es k v

/-- Python dict lookup on an attribute mapping. -/
def lookupAttr (l : List (String × MAttr)) (k : String) : Option MAttr :=
  (l.find? (fun e => e.1 == k)).map (fun e => e.2)

/-- The descriptor tree: a composite (group) node with ordered children, or
a leaf (dataset) node.  `MicroDataGroup.indexed` is carried explicitly. -/
inductive MicroData where
  | grp (name : String) (parent : List String) (attrs : List (String × MAttr))
        (indexed : Bool) (children : List MicroData)
  | dst (d : MicroDset)

/-- Overwrite a node's stored parent path, as `add_children` and
`__populate` do. -/
def MicroData.withParent : MicroData → List String → MicroData
  | .grp n _ a i c, p => .grp n p a i c
  | .dst d, p => .dst { d with parent := p }

/-- The attribute mapping of a node. -/
def MicroData.gattrs : MicroData → List (String × MAttr)
  | .grp _ _ a _ _ => a
  | .dst d => d.attrs

/-- Model of `MicroDataGroup.__init__` (microdata.py lines 58-84): the
caller's attribute dict (or a fresh one) has `machine_id` (the host's fully
qualified domain name) and `timestamp` assigned unconditionally; `indexed`
is set when the nonempty name ends in an underscore; children get their
parent path rewritten to this group's path (the python string concatenation
`self.parent + self.name`, which for the empty root name leaves the parent
path unchanged). -/
def mkMicroDataGroup (name : String) (parent : List String)
    (attrs0 : Option (List (String × MAttr))) (machineId timeStamp : String)
    (children : List MicroData) : MicroData :=
  let a1 := insertAttr (attrs0.getD []) "machine_id" (.plain (.str machineId))
  let a2 := insertAttr a1 "timestamp" (.plain (.str timeStamp))
  let indexed := (name != "") && name.endsWith "_"
  let childPath := if name = "" then parent else parent ++ [name]
  .grp name parent a2 indexed (children.map (fun c => c.withParent childPath))

theorem lookupAttr_insertAttr_self (l : List (String × MAttr)) (k : String)
    (v : MAttr) : lookupAttr (insertAttr l k v) k = some v := by
  induction l with
  | nil => simp [insertAttr, lookupAttr]
  | cons e es ih =>
    by_cases he : e.1 = k
    · simp [insertAttr, he, lookupAttr]
    · simp only [insertAttr, if_neg he]
      simpa [lookupAttr, List.find?_cons, beq_iff_eq, he] using ih

theorem lookupAttr_insertAttr_ne (l : List (String × MAttr)) (k k' : String)
    (v : MAttr) (hne : k' ≠ k) :
    lookupAttr (insertAttr l k v) k' = lookupAttr l k' := by
  have h2 : k ≠ k' := Ne.symm hne
  induction l with
  | nil => simp [insertAttr, lookupAttr, h2]
  | cons e es ih =>
    by_cases he : e.1 = k
    · have h2 : ¬ ((k : String) = k') := fun h => hne h.symm
      simp [insertAttr, he, lookupAttr, h2]
    · simp only [insertAttr, if_neg he]
      by_cases hk : e.1 = k'
      · simp [lookupAttr, hk]
      · simpa [lookupAttr, List.find?_cons, beq_iff_eq, hk] using ih

/-- Claim C10: every composite (group) descriptor, at construction, carries
a `machine_id` and a `timestamp` attribute, overwriting any caller-supplied
values for these two keys. -/
theorem group_ctor_stamps_machine_and_timestamp (name : String)
    (parent : List String) (attrs0 : Option (List (String × MAttr)))
    (machineId timeStamp : String) (children : List MicroData) :
    lookupAttr (mkMicroDataGroup name parent attrs0 machineId timeStamp
        children).gattrs "machine_id" = some (.plain (.str machineId)) ∧
    lookupAttr (mkMicroDataGroup name parent attrs0 machineId timeStamp
        children).gattrs "timestamp" = some (.plain (.str timeStamp)) := by
  unfold mkMicroDataGroup
  simp only [MicroData.gattrs]
  constructor
  · rw [lookupAttr_insertAttr_ne _ _ _ _ (by decide)]
    exact lookupAttr_insertAttr_self _ _ _
  · exact lookupAttr_insertAttr_self _ _ _

/-! Section: The HDF5 store

The underlying file is modelled as an association list from absolute paths
(lists of name segments) to objects, in insertion order, plus the
open/closed state that the fail-fast flush-and-close policy toggles. -/

/-- Absolute path in the store; the root `"/"` is `[]`. -/
abbrev Path := List String

/-- Contents of a stored dataset: either untouched default fill values, or
a written payload. -/
inductive DContent where
  | fill
  | arr (a : NArr)
deriving DecidableEq

/-- A dataset object in the store. -/
structure H5Dset where
  shape : List Nat
  dtype : String
  chunks : Option (List (Option Int))
  compression : Option String
  maxdims : List (Option Int)
  content : DContent
  attrs : List (String × AttrVal)

/-- A group object in the store. -/
structure H5Group where
  attrs : List (String × AttrVal)

/-- A stored object. -/
inductive H5Obj where
  | grp (g : H5Group)
  | dst (d : H5Dset)

/-- The store: object map plus closed flag. -/
structure Store where
  objs : List (Path × H5Obj)
  closed : Bool

/-- Index the file by absolute path, as `h5_file[path]` does. -/
def lookupObj (s : Store) (p : Path) : Option H5Obj :=
  (s.objs.find? (fun e => e.1 == p)).map (fun e => e.2)

/-- Split a nonempty path into its parent path and final name. -/
def splitLast (l : Path) : Option (Path × String) :=
  match l.getLast? with
  | none => none
  | some n => some (l.dropLast, n)

/-- The names of the direct children of a group, in the store's order; this
models `h5_group.keys()`. -/
def childNames (s : Store) (p : Path) : List String :=
  s.objs.filterMap (fun e =>
    match splitLast e.1 with
    | some (q, n) => if q = p then some n else none
    | none => none)

/-- Create a fresh object at a path. -/
def addObj (s : Store) (p : Path) (o : H5Obj) : Store :=
  { s with objs := s.objs ++ [(p, o)] }

/-- Python dict assignment on a store attribute list (same first-occurrence
update-or-append discipline as `insertAttr`). -/
def insertAttrV (l : List (String × AttrVal)) (k : String) (v : AttrVal) :
    List (String × AttrVal) :=
  match l with
  | [] => [(k, v)]
  | e :: es => if e.1 = k then (k, v) :: es else e :: insertAttrV es k v

/-- Lookup on a store attribute list. -/
def getAttrV (l : List (String × AttrVal)) (k : String) : Option AttrVal :=
  (l.find? (fun e => e.1 == k)).map (fun e => e.2)

/-- Set one attribute on a store object. -/
def H5Obj.setAttr (o : H5Obj) (k : String) (v : AttrVal) : H5Obj :=
  match o with
  | .grp g => .grp ⟨insertAttrV g.attrs k v⟩
  | .dst d => .dst { d with attrs := insertAttrV d.attrs k v }

/-- `handle.attrs[k] = v` for the object at path `p`. -/
def setAttrAt (s : Store) (p : Path) (k : String) (v : AttrVal) : Store :=
  { s with objs := s.objs.map (fun e => if e.1 = p then (e.1, e.2.setAttr k v) else e) }

/-- Read an attribute of the object at a path. -/
def attrAt (s : Store) (p : Path) (k : String) : Option AttrVal :=
  match lookupObj s p with
  | some (.grp g) => getAttrV g.attrs k
  | some (.dst d) => getAttrV d.attrs k
  | none => none

/-- The store of either outcome of a unit-valued store computation; a raise
leaves the mutations made so far in the open file. -/
def storeOfU : Except (Err × Store) Store → Store
  | .error (_, s) => s
  | .ok s => s

/-- The store of either outcome of `_create_dataset`. -/
def storeOfD : Except (Err × Store) (Store × Path) → Store
  | .error (_, s) => s
  | .ok (s, _) => s

/-- The store of either outcome of `_create_group`. -/
def storeOfG : Except (Err × Store) (Store × String) → Store
  | .error (_, s) => s
  | .ok (s, _) => s

/-- The store of either outcome of `write`. -/
def storeOfW : Except (Err × Store) (Store × List Path) → Store
  | .error (_, s) => s
  | .ok (s, _) => s

/-! Section: Group creation (`HDFwriter._create_group`) -/

/-- Substring occurrence over character lists: some suffix of the haystack
starts with the needle. -/
def containsSub (hay needle : List Char) : Bool :=
  match hay with
  | [] => needle.isEmpty
  | _ :: t => needle.isPrefixOf hay || containsSub t needle

/-- Python substring test `needle in hay`. -/
def strContains (hay needle : String) : Bool :=
  containsSub hay.data needle.data

/-- Python format to a zero-padded 3-digit decimal. -/
def pad3 (n : Nat) : String :=
  let s := toString n
  if s.length < 3 then String.mk (List.replicate (3 - s.length) '0') ++ s else s

/-- The characters after the last underscore (the whole string when there
is none), which is what `key.split('_')[-1]` selects. -/
def afterLastUnderscore (cs : List Char) : List Char :=
  cs.foldl (fun acc c => if c = '_' then [] else acc ++ [c]) []

/-- Decimal digit parse of one character. -/
def digitVal (c : Char) : Option Nat :=
  if c.isDigit then some (c.toNat - 48) else none

/-- Parse a nonempty all-digit character list as a natural number. -/
def parseNatAux : List Char → Nat → Option Nat
  | [], acc => some acc
  | c :: cs, acc =>
    match digitVal c with
    | none => none
    | some d => parseNatAux cs (acc * 10 + d)

/-- `int(key.split('_')[-1])`: parse the numeric run after the last
underscore; an empty or non-numeric run raises `ValueError` (python's
`int` also accepts signs and surrounding whitespace, which no auto-indexed
group name produces). -/
def trailingNat (key : String) : Option Nat :=
  match afterLastUnderscore key.data with
  | [] => none
  | cs => parseNatAux cs 0

/-- The auto-index naming scan of `_create_group` (hdf_writer.py lines
253-261): keys of the parent containing the base name as a substring are
collected; with none the index is 0, else the trailing numeric suffix of
the last matching key is parsed (a parse failure raises `ValueError`) and
incremented; the zero-padded index is appended to the base name. -/
def resolveIndexedName (base : String) (keys : List String) :
    Except Err String :=
  match (keys.filter (fun k => strContains k base)).getLast? with
  | none => .ok (base ++ pad3 0)
  | some last =>
    match trailingNat last with
    | none => .error .valueError
    | some n => .ok (base ++ pad3 (n + 1))

/-- The attribute loop of `_create_group` (lines 276-281): `None`-valued
attributes are skipped, all others pass through `clean_string_att`.  A
value that is a dict (the labels protocol is not special-cased for groups)
would reach numpy's dict-to-bytes coercion, which no modelled claim
exercises; it is surfaced as an error. -/
def writeGroupAttrs (p : Path) (gattrs : List (String × MAttr)) (s : Store) :
    Except (Err × Store) Store :=
  match gattrs with
  | [] => .ok s
  | (k, v) :: rest =>
    match v with
    | .plain .noneV => writeGroupAttrs p rest s
    | .plain a =>
      match clean a with
      | .error e => .error (e, s)
      | .ok c => writeGroupAttrs p rest (setAttrAt s p k c)
    | .labels _ => .error (.dictValuedAttr, s)

/-- Model of `HDFwriter._create_group` (hdf_writer.py lines 245-285): after
the `isinstance` asserts, an indexed group has its final name resolved by
the auto-index scan; creation of the final name is attempted and a
`ValueError` collision is answered by reusing the existing child
(idempotent attach); then attributes are written.  The resolved name is
returned along with the store, mirroring the in-place `micro_group.name`
mutation that the caller's recursion reads back. -/
def createGroup (parent : Path) (gname : String)
    (gattrs : List (String × MAttr)) (indexed : Bool) (s : Store) :
    Except (Err × Store) (Store × String) :=
  match lookupObj s parent with
  | some (.grp _) =>
    match (if indexed then resolveIndexedName gname (childNames s parent)
           else .ok gname) with
    | .error e => .error (e, s)
    | .ok nm =>
      let s1 := if (childNames s parent).contains nm then s
                else addObj s (parent ++ [nm]) (.grp ⟨[]⟩)
      match writeGroupAttrs (parent ++ [nm]) gattrs s1 with
      | .error es => .error es
      | .ok s2 => .ok (s2, nm)
  | _ => .error (.assertFailure, s)

/-! Section: Dataset creation (`HDFwriter._create_dataset`) -/

/-- Python truthiness of the maxshape tuple: `bool(None)` and `bool(())`
are false, any nonempty tuple is true. -/
def maxshapeTruthy (ms : Option (List (Option Int))) : Bool :=
  match ms with
  | none => false
  | some l => !l.isEmpty

/-- Resolve a maxshape tuple into a concrete allocation shape; a `None` or
negative entry cannot be a dataset extent and makes the underlying
`create_dataset` call fail. -/
def resolveShape : List (Option Int) → Option (List Nat)
  | [] => some []
  | none :: _ => none
  | some v :: rest =>
    if v < 0 then none else (resolveShape rest).map (fun l => v.toNat :: l)

/-- `_create_simple_dset` (lines 287-294): eager-fixed allocation sized and
typed from the payload, which is written immediately. -/
def mkSimpleDset (md : MicroDset) : Except Err H5Dset :=
  match md.data with
  | none => .error .allocFailure
  | some a =>
    .ok { shape := a.shape, dtype := a.dtype, chunks := md.chunking,
          compression := md.compression,
          maxdims := a.shape.map (fun n => some (n : Int)),
          content := .arr a, attrs := [] }

/-- `_create_empty_dset` (lines 296-302): pure capacity reservation of
shape `maxshape` and the declared dtype (h5py defaults a missing dtype to
32-bit floats); the payload is never consulted and the contents stay at
the store's default fill value. -/
def mkEmptyDset (md : MicroDset) : Except Err H5Dset :=
  match md.maxshape.bind resolveShape with
  | none => .error .allocFailure
  | some sh =>
    .ok { shape := sh, dtype := md.dtype.getD "float32",
          chunks := md.chunking, compression := md.compression,
          maxdims := sh.map (fun n => some (n : Int)),
          content := .fill, attrs := [] }

/-- `_create_resizeable_dset` (lines 304-314): allocation sized from the
payload with `maxshape` a tuple of `None` markers, one per payload axis,
so every dimension is unboundedly growable; the caller-supplied
`microdset.maxshape` is never consulted. -/
def mkResizableDset (md : MicroDset) : Except Err H5Dset :=
  match md.data with
  | none => .error .allocFailure
  | some a =>
    .ok { shape := a.shape, dtype := a.dtype, chunks := md.chunking,
          compression := md.compression,
          maxdims := List.replicate a.shape.length none,
          content := .arr a, attrs := [] }

/-! Section: Attribute writing for datasets (`__write_attributes`,
`__write_region_references`) -/

/-- Python list element assignment `l[i] = v`, including the negative-index
convention, raising `IndexError` when out of range. -/
def pySetIdx (l : List (Option String)) (i : Int) (v : String) :
    Except Err (List (Option String)) :=
  if 0 ≤ i ∧ i < (l.length : Int) then .ok (l.set i.toNat (some v))
  else if -(l.length : Int) ≤ i ∧ i < 0 then
    .ok (l.set ((l.length : Int) + i).toNat (some v))
  else .error .indexError

/-- `__write_region_references` (lines 394-422): one reference attribute
per region, in mapping order; a slice tuple whose length differs from the
dataset rank warns and then raises `ValueError`, aborting the rest. -/
def writeRegionRefs (p : Path) (shape : List Nat)
    (regions : List (String × List PySlice)) (s : Store) :
    Except (Err × Store) Store :=
  match regions with
  | [] => .ok s
  | (rname, slices) :: rest =>
    if slices.length = shape.length then
      writeRegionRefs p shape rest (setAttrAt s p rname (.regionRef p slices))
    else .error (.regionRefMismatch, s)

/-- The header axis scan of `__write_attributes` (lines 367-372): the code
enumerates the slice tuple of the FIRST region only
(`list(labels.values())[0]`) and stops at the first axis whose slice has a
defined start. -/
def findDimFirst (firstSlices : List PySlice) : Option Nat :=
  firstSlices.findIdx? (fun sl => sl.start.isSome)

/-- The header placement loop (lines 374-376): each region's name is
assigned at the index given by its slice's start on the chosen axis; a
missing start is a `None` list index (`TypeError`), and a short slice tuple
an `IndexError`. -/
def buildHeaders (regions : List (String × List PySlice)) (dimen : Nat)
    (headers : List (Option String)) : Except Err (List (Option String)) :=
  match regions with
  | [] => .ok headers
  | (rname, slices) :: rest =>
    match slices.get? dimen with
    | none => .error .indexError
    | some sl =>
      match sl.start with
      | none => .error .typeError
      | some i =>
        match pySetIdx headers i rname with
        | .error e => .error e
        | .ok hs => buildHeaders rest dimen hs

/-- The python list of header names (with `None` holes) that is assigned to
the `labels` attribute and passed through `clean_string_att`. -/
def headerVal (headers : List (Option String)) : AttrVal :=
  .list (headers.map (fun o => match o with | none => .noneV | some n => .str n))

/-- The `labels` branch of `__write_attributes` (lines 360-385): region
references are written first; then the header axis is sought in the first
region's slice tuple; if none of its axes has a defined start the header is
skipped with a non-fatal warning (the store is returned unchanged beyond
the region references), else the placed header list is normalized and
stored as the `labels` attribute.  An empty labels dict makes
`list(labels.values())[0]` raise `IndexError`. -/
def writeLabelsBranch (p : Path) (regions : List (String × List PySlice))
    (s : Store) : Except (Err × Store) Store :=
  match lookupObj s p with
  | some (.dst d) =>
    match writeRegionRefs p d.shape regions s with
    | .error es => .error es
    | .ok s1 =>
      match regions.head? with
      | none => .error (.indexError, s1)
      | some (_, firstSlices) =>
        match findDimFirst firstSlices with
        | none => .ok s1
        | some dimen =>
          match buildHeaders regions dimen (List.replicate regions.length none) with
          | .error e => .error (e, s1)
          | .ok hs =>
            match clean (headerVal hs) with
            | .error e => .error (e, s1)
            | .ok c => .ok (setAttrAt s1 p "labels" c)
  | _ => .error (.assertFailure, s)

/-- `__write_attributes` (lines 356-392): the key `labels` selects the
region-reference branch (its value must be a dict of slice tuples); every
other attribute is normalized and stored.  h5py rejects a `None` attribute
value, and a dict value outside the labels protocol reaches numpy's
unmodelled dict coercion. -/
def writeDsetAttrs (p : Path) (attrs : List (String × MAttr)) (s : Store) :
    Except (Err × Store) Store :=
  match attrs with
  | [] => .ok s
  | (k, v) :: rest =>
    if k = "labels" then
      match v with
      | .labels regions =>
        match writeLabelsBranch p regions s with
        | .error es => .error es
        | .ok s1 => writeDsetAttrs p rest s1
      | .plain _ => .error (.labelsNotDict, s)
    else
      match v with
      | .plain a =>
        match clean a with
        | .error e => .error (e, s)
        | .ok .noneV => .error (.noneFileAttr, s)
        | .ok c => writeDsetAttrs p rest (setAttrAt s p k c)
      | .labels _ => .error (.dictValuedAttr, s)

/-- Model of `HDFwriter._create_dataset` (hdf_writer.py lines 316-354):
after the `isinstance` asserts, a name collision with an existing child
raises `ValueError` before anything is created; otherwise the allocation
strategy is chosen (eager-fixed when not resizable and maxshape is falsy,
empty-preallocated when not resizable and maxshape is truthy, resizable
otherwise); an allocation failure flushes and closes the file before
re-raising; finally attributes are written. -/
def createDataset (parent : Path) (md : MicroDset) (s : Store) :
    Except (Err × Store) (Store × Path) :=
  match lookupObj s parent with
  | some (.grp _) =>
    if (childNames s parent).contains md.name then
      .error (.duplicateName, s)
    else
      match (if !md.resizable then
               if !(maxshapeTruthy md.maxshape) then mkSimpleDset md
               else mkEmptyDset md
             else mkResizableDset md) with
      | .error e => .error (e, { s with closed := true })
      | .ok dobj =>
        match writeDsetAttrs (parent ++ [md.name]) md.attrs
            (addObj s (parent ++ [md.name]) (.dst dobj)) with
        | .error es => .error es
        | .ok s2 => .ok (s2, parent ++ [md.name])
  | _ => .error (.assertFailure, s)

/-! Section: Store lemmas -/

/-- The non-attribute core of the dataset at a path: shape, dtype, maximal
dimensions and contents. -/
def dsetCore (s : Store) (p : Path) :
    Option (List Nat × String × List (Option Int) × DContent) :=
  match lookupObj s p with
  | some (.dst d) => some (d.shape, d.dtype, d.maxdims, d.content)
  | _ => none

/-- The paths of all objects in the store, in order. -/
def objPaths (s : Store) : List Path := s.objs.map (fun e => e.1)

theorem find?_map_fst_preserving (f : (Path × H5Obj) → (Path × H5Obj))
    (hf : ∀ e, (f e).1 = e.1) (l : List (Path × H5Obj)) (q : Path) :
    List.find? (fun e => e.1 == q) (l.map f)
      = (List.find? (fun e => e.1 == q) l).map f := by
  induction l with
  | nil => rfl
  | cons e es ih =>
    simp only [List.map_cons, List.find?_cons, hf]
    cases hb : ((e.1 == q) : Bool) with
    | true => simp
    | false => simpa using ih

theorem lookupObj_setAttrAt (s : Store) (p : Path) (k : String) (v : AttrVal)
    (q : Path) :
    lookupObj (setAttrAt s p k v) q
      = (lookupObj s q).map (fun o => if q = p then o.setAttr k v else o) := by
  unfold lookupObj setAttrAt
  simp only
  rw [find?_map_fst_preserving (fun e => if e.1 = p then (e.1, e.2.setAttr k v) else e)
    (fun e => by by_cases h : e.1 = p <;> simp [h]) s.objs q]
  cases hfind : List.find? (fun e => e.1 == q) s.objs with
  | none => rfl
  | some e =>
    have he : e.1 = q := by simpa using List.find?_some hfind
    by_cases hqp : q = p
    · have hep : e.1 = p := by rw [he, hqp]
      simp [hep, hqp]
    · have hep : ¬ e.1 = p := fun hh => hqp (by rw [← he, hh])
      simp [hep, hqp]

theorem dsetCore_setAttrAt (s : Store) (p : Path) (k : String) (v : AttrVal)
    (q : Path) : dsetCore (setAttrAt s p k v) q = dsetCore s q := by
  unfold dsetCore
  rw [lookupObj_setAttrAt]
  cases lookupObj s q with
  | none => rfl
  | some o =>
    cases o with
    | grp g => by_cases h : q = p <;> simp [h, H5Obj.setAttr]
    | dst d => by_cases h : q = p <;> simp [h, H5Obj.setAttr]

theorem objPaths_setAttrAt (s : Store) (p : Path) (k : String) (v : AttrVal) :
    objPaths (setAttrAt s p k v) = objPaths s := by
  unfold objPaths setAttrAt
  simp only [List.map_map]
  apply List.map_congr_left
  intro e _
  by_cases h : e.1 = p <;> simp [h]

/-- Store equivalence up to attributes: same object paths and the same
dataset cores everywhere. -/
def SkelEq (s s' : Store) : Prop :=
  objPaths s' = objPaths s ∧ ∀ q, dsetCore s' q = dsetCore s q

theorem skelEq_refl (s : Store) : SkelEq s s := ⟨rfl, fun _ => rfl⟩

theorem skelEq_trans {s s₁ s₂ : Store} (h1 : SkelEq s s₁) (h2 : SkelEq s₁ s₂) :
    SkelEq s s₂ :=
  ⟨h2.1.trans h1.1, fun q => (h2.2 q).trans (h1.2 q)⟩

theorem skelEq_setAttrAt (s : Store) (p : Path) (k : String) (v : AttrVal) :
    SkelEq s (setAttrAt s p k v) :=
  ⟨objPaths_setAttrAt s p k v, fun q => dsetCore_setAttrAt s p k v q⟩

theorem skelEq_writeRegionRefs (p : Path) (shape : List Nat)
    (regions : List (String × List PySlice)) (s : Store) :
    SkelEq s (storeOfU (writeRegionRefs p shape regions s)) := by
  induction regions generalizing s with
  | nil => exact skelEq_refl s
  | cons r rest ih =>
    obtain ⟨rname, slices⟩ := r
    unfold writeRegionRefs
    by_cases h : slices.length = shape.length
    · simp only [if_pos h]
      exact skelEq_trans (skelEq_setAttrAt s p rname (.regionRef p slices)) (ih _)
    · simp only [if_neg h]
      exact skelEq_refl s

theorem skelEq_writeLabelsBranch (p : Path)
    (regions : List (String × List PySlice)) (s : Store) :
    SkelEq s (storeOfU (writeLabelsBranch p regions s)) := by
  unfold writeLabelsBranch
  split
  · rename_i d heq0
    have h1 := skelEq_writeRegionRefs p d.shape regions s
    split
    · rename_i es heq
      rw [heq] at h1
      exact h1
    · rename_i s1 heq
      rw [heq] at h1
      split
      · exact h1
      · split
        · exact h1
        · split
          · exact h1
          · split
            · exact h1
            · exact skelEq_trans h1 (skelEq_setAttrAt s1 p "labels" _)
  · exact skelEq_refl s

theorem skelEq_writeDsetAttrs (p : Path) (attrs : List (String × MAttr))
    (s : Store) : SkelEq s (storeOfU (writeDsetAttrs p attrs s)) := by
  induction attrs generalizing s with
  | nil => exact skelEq_refl s
  | cons kv rest ih =>
    obtain ⟨k, v⟩ := kv
    unfold writeDsetAttrs
    by_cases hk : k = "labels"
    · simp only [if_pos hk]
      split
      · rename_i regions
        have h1 := skelEq_writeLabelsBranch p regions s
        split
        · rename_i es heq
          rw [heq] at h1
          exact h1
        · rename_i s1 heq
          rw [heq] at h1
          exact skelEq_trans h1 (ih s1)
      · exact skelEq_refl s
    · simp only [if_neg hk]
      split
      · rename_i a
        split
        · exact skelEq_refl s
        · exact skelEq_refl s
        · exact skelEq_trans (skelEq_setAttrAt s p k _) (ih _)
      · exact skelEq_refl s

theorem skelEq_writeGroupAttrs (p : Path) (gattrs : List (String × MAttr))
    (s : Store) : SkelEq s (storeOfU (writeGroupAttrs p gattrs s)) := by
  induction gattrs generalizing s with
  | nil => exact skelEq_refl s
  | cons kv rest ih =>
    obtain ⟨k, v⟩ := kv
    unfold writeGroupAttrs
    split
    · exact ih s
    · rename_i a hnv
      split
      · exact skelEq_refl s
      · exact skelEq_trans (skelEq_setAttrAt s p k _) (ih _)
    · exact skelEq_refl s

theorem splitLast_concat (p : Path) (n : String) :
    splitLast (p ++ [n]) = some (p, n) := by
  unfold splitLast
  rw [List.getLast?_concat]
  simp [List.dropLast_concat]

theorem splitLast_eq_some {l : Path} {q : Path} {n : String}
    (h : splitLast l = some (q, n)) : l = q ++ [n] := by
  unfold splitLast at h
  cases hg : l.getLast? with
  | none => rw [hg] at h; exact absurd h (by simp)
  | some m =>
    rw [hg] at h
    simp only [Option.some_inj, Prod.mk.injEq] at h
    obtain ⟨hq, hn⟩ := h
    have hne : l ≠ [] := by
      intro he
      rw [he] at hg
      exact absurd hg (by simp)
    have hdg := List.dropLast_append_getLast hne
    have h2 : l.getLast? = some (l.getLast hne) := List.getLast?_eq_getLast l hne
    rw [hg] at h2
    have h3 : m = l.getLast hne := Option.some_inj.mp h2
    rw [← hdg, hq, ← h3, hn]

theorem mem_childNames_iff (s : Store) (p : Path) (n : String) :
    n ∈ childNames s p ↔ ∃ e ∈ s.objs, e.1 = p ++ [n] := by
  unfold childNames
  rw [List.mem_filterMap]
  constructor
  · rintro ⟨e, he, hf⟩
    refine ⟨e, he, ?_⟩
    revert hf
    cases hs : splitLast e.1 with
    | none => intro hf; exact absurd hf (by simp)
    | some qn =>
      intro hf
      by_cases hq : qn.1 = p
      · simp only [hq, if_pos rfl] at hf
        have : e.1 = qn.1 ++ [qn.2] := splitLast_eq_some (by rw [hs])
        rw [this, hq, Option.some_inj.mp hf]
      · simp [hq] at hf
  · rintro ⟨e, he, hp⟩
    refine ⟨e, he, ?_⟩
    rw [hp, splitLast_concat]
    simp

theorem lookupObj_eq_none_of_not_child (s : Store) (p : Path) (n : String)
    (h : n ∉ childNames s p) : lookupObj s (p ++ [n]) = none := by
  unfold lookupObj
  rw [Option.map_eq_none', List.find?_eq_none]
  intro e he hbeq
  exact h ((mem_childNames_iff s p n).mpr ⟨e, he, by simpa using hbeq⟩)

theorem lookupObj_addObj_self (s : Store) (p : Path) (o : H5Obj)
    (h : lookupObj s p = none) : lookupObj (addObj s p o) p = some o := by
  unfold lookupObj at h ⊢
  unfold addObj
  rw [Option.map_eq_none', List.find?_eq_none] at h
  have key : ∀ l : List (Path × H5Obj),
      (∀ x ∈ l, ¬ ((fun e => e.1 == p) x = true)) →
      List.find? (fun e => e.1 == p) (l ++ [(p, o)]) = some (p, o) := by
    intro l
    induction l with
    | nil => intro _; simp
    | cons e es ih =>
      intro hl
      have hne : ((e.1 == p) : Bool) = false :=
        Bool.of_not_eq_true (hl e (by simp))
      simp only [List.cons_append, List.find?_cons, hne]
      exact ih (fun x hx => hl x (by simp [hx]))
  show Option.map (fun e => e.2)
      (List.find? (fun e => e.1 == p) (s.objs ++ [(p, o)])) = some o
  rw [key s.objs h]
  rfl

theorem contains_eq_false_of_not_mem {l : List String} {n : String}
    (h : n ∉ l) : l.contains n = false := by
  by_contra hc
  have hc2 : l.contains n = true := Bool.of_not_eq_false hc
  obtain ⟨a, ha, hb⟩ := List.contains_iff_exists_mem_beq.mp hc2
  refine h ?_
  rw [beq_iff_eq.mp hb]
  exact ha

/-! Section: Claims about dataset and group creation -/

/-- Claim C2: for every leaf with `resizable` false and a nonempty (fully
specified) `max_shape`, `_create_dataset` takes the empty-preallocated
path: storage of shape `max_shape` and the declared dtype is allocated,
and the content of the resulting dataset is the store's default fill
value (`DContent.fill`), never the payload — the payload `md.data` is
arbitrary here and in particular may be supplied. -/
theorem createDataset_empty_preallocated (parent : Path) (md : MicroDset)
    (s : Store) (g : H5Group) (hpar : lookupObj s parent = some (.grp g))
    (hres : md.resizable = false) (ms : List (Option Int))
    (hms : md.maxshape = some ms) (hne : ms ≠ [])
    (sh : List Nat) (hsh : resolveShape ms = some sh)
    (dt : String) (hdt : md.dtype = some dt)
    (hdup : md.name ∉ childNames s parent) :
    dsetCore (storeOfD (createDataset parent md s)) (parent ++ [md.name])
      = some (sh, dt, sh.map (fun n => some (n : Int)), DContent.fill) := by
  have hcon : (childNames s parent).contains md.name = false :=
    contains_eq_false_of_not_mem hdup
  have hmt : maxshapeTruthy md.maxshape = true := by
    rw [hms]
    cases ms with
    | nil => exact absurd rfl hne
    | cons a l => rfl
  have hmk : mkEmptyDset md = .ok
      { shape := sh, dtype := dt, chunks := md.chunking,
        compression := md.compression,
        maxdims := sh.map (fun n => some (n : Int)),
        content := .fill, attrs := [] } := by
    unfold mkEmptyDset
    rw [hms]
    simp [hsh, hdt]
  have hl0 : lookupObj s (parent ++ [md.name]) = none :=
    lookupObj_eq_none_of_not_child s parent md.name hdup
  unfold createDataset
  rw [hpar]
  simp only [hcon, Bool.false_eq_true, if_false, hres, Bool.not_false,
    if_true, hmt, Bool.not_true, hmk]
  have hl1 := lookupObj_addObj_self s (parent ++ [md.name])
    (.dst { shape := sh, dtype := dt, chunks := md.chunking,
            compression := md.compression,
            maxdims := sh.map (fun n => some (n : Int)),
            content := .fill, attrs := [] }) hl0
  have hcore1 : dsetCore (addObj s (parent ++ [md.name])
      (.dst { shape := sh, dtype := dt, chunks := md.chunking,
              compression := md.compression,
              maxdims := sh.map (fun n => some (n : Int)),
              content := .fill, attrs := [] })) (parent ++ [md.name])
      = some (sh, dt, sh.map (fun n => some (n : Int)), DContent.fill) := by
    unfold dsetCore
    rw [hl1]
  have hskel := skelEq_writeDsetAttrs (parent ++ [md.name]) md.attrs
    (addObj s (parent ++ [md.name])
      (.dst { shape := sh, dtype := dt, chunks := md.chunking,
              compression := md.compression,
              maxdims := sh.map (fun n => some (n : Int)),
              content := .fill, attrs := [] }))
  split
  · rename_i es hw
    obtain ⟨e1, serr⟩ := es
    rw [hw] at hskel
    have h2 := hskel.2 (parent ++ [md.name])
    show dsetCore serr (parent ++ [md.name]) = _
    rw [show dsetCore serr (parent ++ [md.name])
        = dsetCore (storeOfU (Except.error (e1, serr))) (parent ++ [md.name])
      from rfl, h2]
    exact hcore1
  · rename_i s2 hw
    rw [hw] at hskel
    have h2 := hskel.2 (parent ++ [md.name])
    show dsetCore s2 (parent ++ [md.name]) = _
    rw [show dsetCore s2 (parent ++ [md.name])
        = dsetCore (storeOfU (Except.ok s2)) (parent ++ [md.name]) from rfl, h2]
    exact hcore1

/-- The store holding nothing but an open root group. -/
def rootOnlyStore : Store := ⟨[([], .grp ⟨[]⟩)], false⟩

/-- A root group with one existing child group named `x`. -/
def rootWithXStore : Store := ⟨[([], .grp ⟨[]⟩), (["x"], .grp ⟨[]⟩)], false⟩

/-- A root group with one existing child group named `Run_000`. -/
def rootWithRunStore : Store :=
  ⟨[([], .grp ⟨[]⟩), (["Run_000"], .grp ⟨[]⟩)], false⟩

/-- An empty-preallocated leaf descriptor that also carries a payload. -/
def emptyWithPayloadDset : MicroDset :=
  { name := "d", parent := [], data := some ⟨[2, 2], "int32", [1, 2, 3, 4]⟩,
    dtype := some "f16", compression := none, chunking := none,
    resizable := false, maxshape := some [some 3, some 4], attrs := [] }

/-- Witness for claim C2: a 3-by-4 preallocation with declared dtype
despite a supplied 2-by-2 payload stays at the fill value. -/
theorem createDataset_empty_preallocated_witness :
    dsetCore (storeOfD (createDataset [] emptyWithPayloadDset rootOnlyStore))
      ["d"] = some ([3, 4], "f16", [some 3, some 4], DContent.fill) :=
  createDataset_empty_preallocated [] emptyWithPayloadDset rootOnlyStore
    ⟨[]⟩ rfl rfl [some 3, some 4] rfl (by decide) [3, 4] rfl "f16" rfl
    (by decide)

/-- Claim C3: for every leaf with `resizable` true and a payload,
`_create_dataset` allocates storage sized from the payload's shape with a
store-level unlimited marker (`none`) on every axis, regardless of the
caller-supplied `max_shape` (here arbitrary and unconstrained) or of which
axes the caller intended to grow. -/
theorem createDataset_resizable_unlimited (parent : Path) (md : MicroDset)
    (s : Store) (g : H5Group) (hpar : lookupObj s parent = some (.grp g))
    (hres : md.resizable = true) (a : NArr) (hdata : md.data = some a)
    (hdup : md.name ∉ childNames s parent) :
    dsetCore (storeOfD (createDataset parent md s)) (parent ++ [md.name])
      = some (a.shape, a.dtype, List.replicate a.shape.length none,
          DContent.arr a) := by
  have hcon : (childNames s parent).contains md.name = false :=
    contains_eq_false_of_not_mem hdup
  have hmk : mkResizableDset md = .ok
      { shape := a.shape, dtype := a.dtype, chunks := md.chunking,
        compression := md.compression,
        maxdims := List.replicate a.shape.length none,
        content := .arr a, attrs := [] } := by
    unfold mkResizableDset
    rw [hdata]
  have hl0 : lookupObj s (parent ++ [md.name]) = none :=
    lookupObj_eq_none_of_not_child s parent md.name hdup
  unfold createDataset
  rw [hpar]
  simp only [hcon, Bool.false_eq_true, if_false, hres, Bool.not_true, hmk]
  have hl1 := lookupObj_addObj_self s (parent ++ [md.name])
    (.dst { shape := a.shape, dtype := a.dtype, chunks := md.chunking,
            compression := md.compression,
            maxdims := List.replicate a.shape.length none,
            content := .arr a, attrs := [] }) hl0
  have hcore1 : dsetCore (addObj s (parent ++ [md.name])
      (.dst { shape := a.shape, dtype := a.dtype, chunks := md.chunking,
              compression := md.compression,
              maxdims := List.replicate a.shape.length none,
              content := .arr a, attrs := [] })) (parent ++ [md.name])
      = some (a.shape, a.dtype, List.replicate a.shape.length none,
          DContent.arr a) := by
    unfold dsetCore
    rw [hl1]
  have hskel := skelEq_writeDsetAttrs (parent ++ [md.name]) md.attrs
    (addObj s (parent ++ [md.name])
      (.dst { shape := a.shape, dtype := a.dtype, chunks := md.chunking,
              compression := md.compression,
              maxdims := List.replicate a.shape.length none,
              content := .arr a, attrs := [] }))
  split
  · rename_i es hw
    obtain ⟨e1, serr⟩ := es
    rw [hw] at hskel
    have h2 := hskel.2 (parent ++ [md.name])
    show dsetCore serr (parent ++ [md.name]) = _
    rw [show dsetCore serr (parent ++ [md.name])
        = dsetCore (storeOfU (Except.error (e1, serr))) (parent ++ [md.name])
      from rfl, h2]
    exact hcore1
  · rename_i s2 hw
    rw [hw] at hskel
    have h2 := hskel.2 (parent ++ [md.name])
    show dsetCore s2 (parent ++ [md.name]) = _
    rw [show dsetCore s2 (parent ++ [md.name])
        = dsetCore (storeOfU (Except.ok s2)) (parent ++ [md.name]) from rfl, h2]
    exact hcore1

/-- A resizable leaf descriptor whose caller bounded only the second axis. -/
def resizableDset : MicroDset :=
  { name := "r", parent := [], data := some ⟨[1, 4], "c64", [0, 0, 0, 0]⟩,
    dtype := none, compression := none, chunking := none,
    resizable := true, maxshape := some [none, some 16384], attrs := [] }

/-- Witness for claim C3: a resizable leaf constructed with a caller
max-shape of 1-by-16384 still gets unlimited markers on both axes and is
sized from its 1-by-4 payload. -/
theorem createDataset_resizable_unlimited_witness :
    dsetCore (storeOfD (createDataset [] resizableDset rootOnlyStore)) ["r"]
      = some ([1, 4], "c64", [none, none],
          DContent.arr ⟨[1, 4], "c64", [0, 0, 0, 0]⟩) :=
  createDataset_resizable_unlimited [] resizableDset rootOnlyStore ⟨[]⟩ rfl
    rfl ⟨[1, 4], "c64", [0, 0, 0, 0]⟩ rfl (by decide)

/-- Claim C4: materializing a leaf whose name already exists as a child of
its target parent raises the duplicate-name `ValueError` before creating
anything — the store comes back exactly as it went in, not even closed;
creating a composite (auto-indexing unset, as the cited spec property
states) whose name already exists does not error on the collision but
reuses the existing child as its handle: no object path is added and the
resolved name is the requested one. -/
theorem duplicate_leaf_fatal_group_idempotent (parent : Path) (s : Store)
    (g : H5Group) (hpar : lookupObj s parent = some (.grp g)) :
    (∀ md : MicroDset, md.name ∈ childNames s parent →
      createDataset parent md s = .error (.duplicateName, s)) ∧
    (∀ gname gattrs, gname ∈ childNames s parent →
      objPaths (storeOfG (createGroup parent gname gattrs false s)) = objPaths s ∧
      ∀ s' r, createGroup parent gname gattrs false s = .ok (s', r) → r = gname) := by
  constructor
  · intro md hmem
    have hcon : (childNames s parent).contains md.name = true :=
      List.contains_iff_exists_mem_beq.mpr ⟨md.name, hmem, by simp⟩
    unfold createDataset
    rw [hpar]
    simp only [hcon, eq_self_iff_true, if_true]
  · intro gname gattrs hmem
    have hcon : (childNames s parent).contains gname = true :=
      List.contains_iff_exists_mem_beq.mpr ⟨gname, hmem, by simp⟩
    have hskel := skelEq_writeGroupAttrs (parent ++ [gname]) gattrs s
    have hred : createGroup parent gname gattrs false s
        = (match writeGroupAttrs (parent ++ [gname]) gattrs s with
           | .error es => .error es
           | .ok s2 => .ok (s2, gname)) := by
      unfold createGroup
      rw [hpar]
      simp only [Bool.false_eq_true, if_false, hcon, eq_self_iff_true, if_true]
    rcases hw : writeGroupAttrs (parent ++ [gname]) gattrs s with es | s2
    · obtain ⟨e1, serr⟩ := es
      rw [hw] at hred hskel
      constructor
      · rw [hred]
        exact hskel.1
      · intro s' r hok
        rw [hred] at hok
        exact absurd (show Except.error (e1, serr)
          = (Except.ok (s', r) : Except (Err × Store) (Store × String))
          from hok) (by simp)
    · rw [hw] at hred hskel
      constructor
      · rw [hred]
        exact hskel.1
      · intro s' r hok
        rw [hred] at hok
        have h1 := Except.ok.inj hok
        exact (congrArg Prod.snd h1).symm

/-- A leaf named like the existing child `x`. -/
def clashingDset : MicroDset :=
  { name := "x", parent := [], data := some ⟨[1], "i8", [0]⟩, dtype := none,
    compression := none, chunking := none, resizable := false,
    maxshape := none, attrs := [] }

/-- Witness for claim C4: with an existing child `x` of the root, a leaf
named `x` raises the duplicate error with the store untouched, and a group
named `x` is attached idempotently without adding an object. -/
theorem duplicate_leaf_fatal_group_idempotent_witness :
    createDataset [] clashingDset rootWithXStore
      = .error (.duplicateName, rootWithXStore) ∧
    objPaths (storeOfG (createGroup [] "x" [] false rootWithXStore))
      = objPaths rootWithXStore := by
  have h := duplicate_leaf_fatal_group_idempotent [] rootWithXStore ⟨[]⟩ rfl
  exact ⟨h.1 clashingDset (by decide), (h.2 "x" [] (by decide)).1⟩

/-- Claim C6: auto-indexed group creation scans the parent's existing
children for names containing the base name as a substring; with no match
the final resolved name is the base name followed by `000`, and with
matches the trailing numeric suffix after the last underscore of the last
matching key is parsed and incremented into a new zero-padded suffix. -/
theorem createGroup_autoindex (parent : Path) (base : String)
    (gattrs : List (String × MAttr)) (s : Store) (g : H5Group)
    (hpar : lookupObj s parent = some (.grp g)) :
    ((childNames s parent).filter (fun k => strContains k base) = [] →
      ∀ s' r, createGroup parent base gattrs true s = .ok (s', r) →
        r = base ++ "000") ∧
    (∀ last n,
      ((childNames s parent).filter (fun k => strContains k base)).getLast?
        = some last →
      trailingNat last = some n →
      ∀ s' r, createGroup parent base gattrs true s = .ok (s', r) →
        r = base ++ pad3 (n + 1)) := by
  have main : ∀ nm, resolveIndexedName base (childNames s parent) = .ok nm →
      ∀ s' r, createGroup parent base gattrs true s = .ok (s', r) → r = nm := by
    intro nm hresv s' r hok
    have hred : createGroup parent base gattrs true s
        = (match writeGroupAttrs (parent ++ [nm]) gattrs
             (if (childNames s parent).contains nm then s
              else addObj s (parent ++ [nm]) (.grp ⟨[]⟩)) with
           | .error es => .error es
           | .ok s2 => .ok (s2, nm)) := by
      unfold createGroup
      rw [hpar]
      simp only [eq_self_iff_true, if_true, hresv]
    rw [hred] at hok
    rcases hw : writeGroupAttrs (parent ++ [nm]) gattrs
        (if (childNames s parent).contains nm then s
         else addObj s (parent ++ [nm]) (.grp ⟨[]⟩)) with es | s2
    · rw [hw] at hok
      obtain ⟨e1, serr⟩ := es
      exact absurd (show Except.error (e1, serr)
        = (Except.ok (s', r) : Except (Err × Store) (Store × String))
        from hok) (by simp)
    · rw [hw] at hok
      have h1 := Except.ok.inj hok
      exact (congrArg Prod.snd h1).symm
  constructor
  · intro hfil
    refine main (base ++ "000") ?_
    unfold resolveIndexedName
    rw [hfil]
    rfl
  · intro last n hlast htrail
    refine main (base ++ pad3 (n + 1)) ?_
    unfold resolveIndexedName
    simp only [hlast, htrail]

/-- Witness for claim C6: with an existing sibling literally named
`Run_000`, base name `Run_` resolves to `Run_001`; with no siblings it
resolves to `Run_000`. -/
theorem createGroup_autoindex_witness :
    (createGroup [] "Run_" [] true rootWithRunStore).map Prod.snd
      = .ok ("Run_" ++ pad3 (0 + 1)) ∧
    (createGroup [] "Run_" [] true rootOnlyStore).map Prod.snd
      = .ok ("Run_" ++ "000") := by
  constructor
  · have h := (createGroup_autoindex [] "Run_" [] rootWithRunStore ⟨[]⟩ rfl).2
      "Run_000" 0 rfl rfl
    have hres : createGroup [] "Run_" [] true rootWithRunStore
        = .ok (storeOfG (createGroup [] "Run_" [] true rootWithRunStore),
            "Run_001") := rfl
    rw [hres, h _ _ hres]
    rfl
  · have h := (createGroup_autoindex [] "Run_" [] rootOnlyStore ⟨[]⟩ rfl).1 rfl
    have hres : createGroup [] "Run_" [] true rootOnlyStore
        = .ok (storeOfG (createGroup [] "Run_" [] true rootOnlyStore),
            "Run_000") := rfl
    rw [hres, h _ _ hres]
    rfl

/-! Section: Attribute-level lemmas for the region-reference machinery -/

theorem getAttrV_insertAttrV_self (l : List (String × AttrVal)) (k : String)
    (v : AttrVal) : getAttrV (insertAttrV l k v) k = some v := by
  induction l with
  | nil => simp [insertAttrV, getAttrV]
  | cons e es ih =>
    by_cases he : e.1 = k
    · simp [insertAttrV, he, getAttrV]
    · simp only [insertAttrV, if_neg he]
      simpa [getAttrV, List.find?_cons, beq_iff_eq, he] using ih

theorem getAttrV_insertAttrV_ne (l : List (String × AttrVal)) (k k' : String)
    (v : AttrVal) (hne : k' ≠ k) :
    getAttrV (insertAttrV l k v) k' = getAttrV l k' := by
  have h2 : k ≠ k' := Ne.symm hne
  induction l with
  | nil => simp [insertAttrV, getAttrV, h2]
  | cons e es ih =>
    by_cases he : e.1 = k
    · simp [insertAttrV, he, getAttrV, h2]
    · simp only [insertAttrV, if_neg he]
      by_cases hk : e.1 = k'
      · simp [getAttrV, hk]
      · simpa [getAttrV, List.find?_cons, beq_iff_eq, hk] using ih

theorem attrAt_setAttrAt_self (s : Store) (p : Path) (k : String) (v : AttrVal)
    (o : H5Obj) (h : lookupObj s p = some o) :
    attrAt (setAttrAt s p k v) p k = some v := by
  unfold attrAt
  rw [lookupObj_setAttrAt, h]
  simp only [Option.map_some', if_pos rfl]
  cases o with
  | grp g => simp [H5Obj.setAttr, getAttrV_insertAttrV_self]
  | dst d => simp [H5Obj.setAttr, getAttrV_insertAttrV_self]

theorem attrAt_setAttrAt_ne (s : Store) (p q : Path) (k k' : String)
    (v : AttrVal) (hne : k' ≠ k) :
    attrAt (setAttrAt s p k v) q k' = attrAt s q k' := by
  unfold attrAt
  rw [lookupObj_setAttrAt]
  cases h : lookupObj s q with
  | none => rfl
  | some o =>
    simp only [Option.map_some']
    by_cases hq : q = p
    · rw [if_pos hq]
      cases o with
      | grp g => simp [H5Obj.setAttr, getAttrV_insertAttrV_ne _ _ _ _ hne]
      | dst d => simp [H5Obj.setAttr, getAttrV_insertAttrV_ne _ _ _ _ hne]
    · rw [if_neg hq]

theorem writeRegionRefs_ok (p : Path) (shape : List Nat) :
    ∀ (regions : List (String × List PySlice)) (s : Store),
      (∀ r ∈ regions, r.2.length = shape.length) →
      ∃ s1, writeRegionRefs p shape regions s = .ok s1 := by
  intro regions
  induction regions with
  | nil => intro s _; exact ⟨s, rfl⟩
  | cons r rest ih =>
    intro s h
    obtain ⟨rname, slices⟩ := r
    unfold writeRegionRefs
    have hcond : slices.length = shape.length := h (rname, slices) (by simp)
    rw [if_pos hcond]
    exact ih _ (fun x hx => h x (by simp [hx]))

theorem writeRegionRefs_key_preserved (p : Path) (shape : List Nat)
    (k : String) (q : Path) :
    ∀ (regions : List (String × List PySlice)) (s s1 : Store),
      writeRegionRefs p shape regions s = .ok s1 →
      k ∉ regions.map Prod.fst →
      attrAt s1 q k = attrAt s q k := by
  intro regions
  induction regions with
  | nil =>
    intro s s1 hok _
    have : s = s1 := Except.ok.inj hok
    rw [this]
  | cons r rest ih =>
    intro s s1 hok hk
    obtain ⟨rname, slices⟩ := r
    unfold writeRegionRefs at hok
    by_cases h : slices.length = shape.length
    · rw [if_pos h] at hok
      have hkname : k ≠ rname := by
        intro he
        exact hk (by simp [he])
      rw [ih _ _ hok (fun hmem => hk (by simp [hmem]))]
      exact attrAt_setAttrAt_ne s p q rname k _ hkname
    · rw [if_neg h] at hok
      exact Except.noConfusion hok

theorem writeRegionRefs_attrs (p : Path) (shape : List Nat) :
    ∀ (regions : List (String × List PySlice)) (s s1 : Store),
      writeRegionRefs p shape regions s = .ok s1 →
      (regions.map Prod.fst).Nodup →
      (∃ o, lookupObj s p = some o) →
      ∀ r ∈ regions, attrAt s1 p r.1 = some (.regionRef p r.2) := by
  intro regions
  induction regions with
  | nil =>
    intro s s1 _ _ _ r hr
    exact absurd hr (by simp)
  | cons r0 rest ih =>
    intro s s1 hok hnodup hobj r hr
    obtain ⟨rname, slices⟩ := r0
    obtain ⟨o, ho⟩ := hobj
    unfold writeRegionRefs at hok
    by_cases h : slices.length = shape.length
    · rw [if_pos h] at hok
      have hobj1 : ∃ o1, lookupObj (setAttrAt s p rname (.regionRef p slices)) p
          = some o1 := by
        refine ⟨o.setAttr rname (.regionRef p slices), ?_⟩
        rw [lookupObj_setAttrAt, ho]
        simp
      rcases List.mem_cons.mp hr with heq | hmem
      · subst heq
        have hnotin : rname ∉ rest.map Prod.fst := by
          have := hnodup
          simp only [List.map_cons, List.nodup_cons] at this
          exact this.1
        rw [writeRegionRefs_key_preserved p shape rname p rest _ _ hok hnotin]
        exact attrAt_setAttrAt_self s p rname (.regionRef p slices) o ho
      · exact ih _ _ hok (by
          have := hnodup
          simp only [List.map_cons, List.nodup_cons] at this
          exact this.2) hobj1 r hmem
    · rw [if_neg h] at hok
      exact Except.noConfusion hok

/-- A region's slice start on the chosen axis exists and is a valid
nonnegative header index below `n`. -/
def startOk (dimen : Nat) (n : Nat) (r : String × List PySlice) : Bool :=
  match (r.2.get? dimen).bind PySlice.start with
  | some i => decide (0 ≤ i) && decide (i < (n : Int))
  | none => false

theorem buildHeaders_ok (dimen : Nat) :
    ∀ (regions : List (String × List PySlice)) (init : List (Option String)),
      regions.all (startOk dimen init.length) = true →
      ∃ hs, buildHeaders regions dimen init = .ok hs ∧
        hs.length = init.length := by
  intro regions
  induction regions with
  | nil => intro init _; exact ⟨init, rfl, rfl⟩
  | cons r rest ih =>
    intro init hall
    obtain ⟨rname, slices⟩ := r
    have h1 : startOk dimen init.length (rname, slices) = true :=
      List.all_eq_true.mp hall _ (by simp)
    unfold startOk at h1
    cases hg : (slices.get? dimen).bind PySlice.start with
    | none => rw [hg] at h1; exact absurd h1 (by simp)
    | some i =>
      rw [hg] at h1
      simp only [Bool.and_eq_true, decide_eq_true_eq] at h1
      obtain ⟨h0, hlt⟩ := h1
      obtain ⟨sl, hsl, hst⟩ := Option.bind_eq_some.mp hg
      have hset : pySetIdx init i rname = .ok (init.set i.toNat (some rname)) := by
        unfold pySetIdx
        rw [if_pos ⟨h0, hlt⟩]
      unfold buildHeaders
      simp only [hsl, hst, hset]
      have hall2 : rest.all (startOk dimen (init.set i.toNat (some rname)).length)
          = true := by
        rw [List.length_set]
        exact List.all_eq_true.mpr
          (fun x hx => List.all_eq_true.mp hall x (by simp [hx]))
      obtain ⟨hs, hrec, hlen⟩ := ih (init.set i.toNat (some rname)) hall2
      refine ⟨hs, hrec, ?_⟩
      rw [hlen, List.length_set]

theorem buildHeaders_get_preserved (dimen : Nat) :
    ∀ (regions : List (String × List PySlice))
      (init hs : List (Option String)),
      buildHeaders regions dimen init = .ok hs →
      ∀ m : Nat,
        (∀ r ∈ regions, ∀ j : Int,
          (r.2.get? dimen).bind PySlice.start = some j → 0 ≤ j ∧ j ≠ (m : Int)) →
        hs.get? m = init.get? m := by
  intro regions
  induction regions with
  | nil =>
    intro init hs hok m _
    have : init = hs := Except.ok.inj hok
    rw [this]
  | cons r rest ih =>
    intro init hs hok m hm
    obtain ⟨rname, slices⟩ := r
    unfold buildHeaders at hok
    cases hsl : slices.get? dimen with
    | none => rw [hsl] at hok; exact Except.noConfusion hok
    | some sl =>
      simp only [hsl] at hok
      cases hst : sl.start with
      | none => simp only [hst] at hok; exact Except.noConfusion hok
      | some i =>
        simp only [hst] at hok
        have hbind : ((slices.get? dimen).bind PySlice.start) = some i := by
          rw [hsl]
          exact hst
        obtain ⟨h0, hne⟩ := hm (rname, slices) (by simp) i hbind
        by_cases hrange : 0 ≤ i ∧ i < (init.length : Int)
        · have hset : pySetIdx init i rname
              = .ok (init.set i.toNat (some rname)) := by
            unfold pySetIdx
            rw [if_pos hrange]
          simp only [hset] at hok
          have hstep := ih _ _ hok m
            (fun r2 hr2 j hj => hm r2 (by simp [hr2]) j hj)
          rw [hstep]
          have hnat : i.toNat ≠ m := by omega
          simp only [List.get?_eq_getElem?]
          exact List.getElem?_set_ne hnat
        · have hset : pySetIdx init i rname = .error .indexError := by
            unfold pySetIdx
            rw [if_neg hrange, if_neg (by omega)]
          simp only [hset] at hok
          exact Except.noConfusion hok

theorem buildHeaders_placement (dimen : Nat) :
    ∀ (regions : List (String × List PySlice))
      (init hs : List (Option String)),
      buildHeaders regions dimen init = .ok hs →
      regions.all (startOk dimen init.length) = true →
      regions.Pairwise (fun r1 r2 => (r1.2.get? dimen).bind PySlice.start
        ≠ (r2.2.get? dimen).bind PySlice.start) →
      ∀ r ∈ regions, ∀ i : Int,
        (r.2.get? dimen).bind PySlice.start = some i →
        hs.get? i.toNat = some (some r.1) := by
  intro regions
  induction regions with
  | nil =>
    intro init hs _ _ _ r hr
    exact absurd hr (by simp)
  | cons r0 rest ih =>
    intro init hs hok hall hpair r hr i hi
    obtain ⟨rname, slices⟩ := r0
    have h1 : startOk dimen init.length (rname, slices) = true :=
      List.all_eq_true.mp hall _ (by simp)
    unfold startOk at h1
    cases hg : (slices.get? dimen).bind PySlice.start with
    | none => rw [hg] at h1; exact absurd h1 (by simp)
    | some i0 =>
      rw [hg] at h1
      simp only [Bool.and_eq_true, decide_eq_true_eq] at h1
      obtain ⟨h0, hlt⟩ := h1
      obtain ⟨sl, hsl, hst⟩ := Option.bind_eq_some.mp hg
      have hset : pySetIdx init i0 rname
          = .ok (init.set i0.toNat (some rname)) := by
        unfold pySetIdx
        rw [if_pos ⟨h0, hlt⟩]
      unfold buildHeaders at hok
      simp only [hsl, hst, hset] at hok
      rcases List.mem_cons.mp hr with heq | hmem
      · subst heq
        have hi2 : (slices.get? dimen).bind PySlice.start = some i := hi
        rw [hg] at hi2
        have hii : i = i0 := (Option.some_inj.mp hi2).symm
        subst hii
        have hpres := buildHeaders_get_preserved dimen rest _ _ hok i.toNat
          (by
            intro r2 hr2 j hj
            have hok2 : startOk dimen init.length r2 = true :=
              List.all_eq_true.mp hall r2 (by simp [hr2])
            unfold startOk at hok2
            rw [hj] at hok2
            simp only [Bool.and_eq_true, decide_eq_true_eq] at hok2
            refine ⟨hok2.1, ?_⟩
            have hne0 := (List.pairwise_cons.mp hpair).1 r2 hr2
            rw [hg, hj] at hne0
            have hji : j ≠ i := fun hc => hne0 (by rw [hc])
            omega)
        rw [hpres]
        have hnat : i.toNat < init.length := by omega
        simp only [List.get?_eq_getElem?]
        exact List.getElem?_set_eq_of_lt (some rname) hnat
      · have hall2 : rest.all
            (startOk dimen (init.set i0.toNat (some rname)).length) = true := by
          rw [List.length_set]
          exact List.all_eq_true.mpr
            (fun x hx => List.all_eq_true.mp hall x (by simp [hx]))
        exact ih _ _ hok hall2 (List.pairwise_cons.mp hpair).2 r hmem i hi

theorem clean_headerVal (hs : List (Option String))
    (h : ∃ x ∈ hs, x.isSome = true) :
    clean (headerVal hs)
      = .ok (.arr1S (hs.map (fun o => o.getD "None"))) := by
  obtain ⟨x, hx, hsome⟩ := h
  have hany : ((hs.map (fun o => match o with
        | none => AttrVal.noneV
        | some n => AttrVal.str n)).map typeOf).any
      (fun t => t == .pyStr || t == .pyBytes) = true := by
    rcases x with _ | n
    · exact absurd hsome (by simp)
    · refine List.any_eq_true.mpr ⟨.pyStr, ?_, by decide⟩
      refine List.mem_map.mpr ⟨.str n, ?_, rfl⟩
      exact List.mem_map.mpr ⟨some n, hx, rfl⟩
  show clean (.list (hs.map (fun o => match o with
    | none => AttrVal.noneV
    | some n => AttrVal.str n))) = _
  unfold clean
  simp only [isIterable, typeOf, elemTypes, if_true]
  rw [if_neg (by simp)]
  simp only [hany, if_pos rfl, toSArray]
  rw [if_pos trivial]
  congr 1
  congr 1
  rw [List.map_map]
  apply List.map_congr_left
  intro o _
  cases o <;> rfl

/-! Section: Claim C5: the labels header synthesis -/

/-- Modelled from the spec's words for comparison (claim C5): find the
first axis where ANY region's slice has a defined start value, scanning up
to the rank of the first region's slice tuple. -/
def specAnyRegionFindDim (regions : List (String × List PySlice)) :
    Option Nat :=
  let rank := (regions.head?.map (fun r => r.2.length)).getD 0
  (List.range rank).find? (fun d =>
    regions.any (fun r => ((r.2.get? d).bind PySlice.start).isSome))

/-- A 2-by-2 dataset object used by the region-reference examples. -/
def labDset : H5Dset :=
  { shape := [2, 2], dtype := "f32", chunks := none, compression := none,
    maxdims := [some 2, some 2], content := .fill, attrs := [] }

/-- A store holding the root group and the 2-by-2 dataset `ds`. -/
def labStore : Store := ⟨[([], .grp ⟨[]⟩), (["ds"], .dst labDset)], false⟩

/-- Two regions of the 2-by-2 dataset: the first (`A`) has no defined
start on any axis, the second (`B`) pins axis 0 by its start. -/
def cexRegions : List (String × List PySlice) :=
  [("A", [⟨none, none⟩, ⟨none, none⟩]),
   ("B", [⟨some 0, some 1⟩, ⟨none, none⟩])]

/-- Claim C5 (counterexample): the claim says the header axis is the first
axis where ANY region's slice has a defined start (here axis 0, supplied
by region `B`), and that when such an axis exists a header list is stored
as the `labels` attribute.  The code scans only the FIRST region's slice
tuple (`list(labels.values())[0]`), finds no defined start there, and
skips header synthesis with a non-fatal warning: the write succeeds, both
region-reference attributes are present, but no `labels` attribute is
written. -/
theorem labels_header_any_region_scan_counterexample :
    specAnyRegionFindDim cexRegions = some 0 ∧
    writeLabelsBranch ["ds"] cexRegions labStore
      = .ok (storeOfU (writeLabelsBranch ["ds"] cexRegions labStore)) ∧
    attrAt (storeOfU (writeLabelsBranch ["ds"] cexRegions labStore))
      ["ds"] "labels" = none ∧
    attrAt (storeOfU (writeLabelsBranch ["ds"] cexRegions labStore))
      ["ds"] "A" = some (.regionRef ["ds"] [⟨none, none⟩, ⟨none, none⟩]) ∧
    attrAt (storeOfU (writeLabelsBranch ["ds"] cexRegions labStore))
      ["ds"] "B" = some (.regionRef ["ds"] [⟨some 0, some 1⟩, ⟨none, none⟩]) :=
  ⟨rfl, rfl, rfl, rfl, rfl⟩

/-- Claim C5 (amended): when writing a leaf's `labels` attribute, the
header axis is found by scanning the FIRST region's slice tuple for the
first axis whose slice has a defined start.  If such an axis exists (and
every region's start on it is a valid, pairwise distinct header index), a
header list of length equal to the number of regions is built with each
region's name placed at the index given by its start value on that axis
and stored as the `labels` attribute.  If the first region has no defined
start on any axis, header synthesis is skipped with a non-fatal warning
while the per-region reference attributes are still written. -/
theorem writeLabels_scans_first_region (p : Path) (d : H5Dset) (s : Store)
    (hd : lookupObj s p = some (.dst d))
    (regions : List (String × List PySlice))
    (first : String × List PySlice) (hfirst : regions.head? = some first)
    (hrank : ∀ r ∈ regions, r.2.length = d.shape.length)
    (hnodup : (regions.map Prod.fst).Nodup)
    (hnolab : "labels" ∉ regions.map Prod.fst) :
    (findDimFirst first.2 = none →
      ∃ sOut, writeLabelsBranch p regions s = .ok sOut ∧
        attrAt sOut p "labels" = attrAt s p "labels" ∧
        ∀ r ∈ regions, attrAt sOut p r.1 = some (.regionRef p r.2)) ∧
    (∀ dimen, findDimFirst first.2 = some dimen →
      regions.all (startOk dimen regions.length) = true →
      regions.Pairwise (fun r1 r2 => (r1.2.get? dimen).bind PySlice.start
        ≠ (r2.2.get? dimen).bind PySlice.start) →
      ∃ sOut hs, writeLabelsBranch p regions s = .ok sOut ∧
        buildHeaders regions dimen (List.replicate regions.length none)
          = .ok hs ∧
        hs.length = regions.length ∧
        attrAt sOut p "labels"
          = some (.arr1S (hs.map (fun o => o.getD "None"))) ∧
        (∀ r ∈ regions, ∀ i : Int,
          (r.2.get? dimen).bind PySlice.start = some i →
          hs.get? i.toNat = some (some r.1)) ∧
        (∀ r ∈ regions, attrAt sOut p r.1 = some (.regionRef p r.2))) := by
  obtain ⟨s1, hok1⟩ := writeRegionRefs_ok p d.shape regions s hrank
  have hobj : ∃ o, lookupObj s p = some o := ⟨_, hd⟩
  have hrefs := writeRegionRefs_attrs p d.shape regions s s1 hok1 hnodup hobj
  have hobj1 : ∃ o1, lookupObj s1 p = some o1 := by
    have hskel := (skelEq_writeRegionRefs p d.shape regions s).2 p
    rw [hok1] at hskel
    have hds : dsetCore s p = some (d.shape, d.dtype, d.maxdims, d.content) := by
      unfold dsetCore
      rw [hd]
    have hds1 : dsetCore s1 p = some (d.shape, d.dtype, d.maxdims, d.content) := by
      rw [show dsetCore s1 p = dsetCore (storeOfU (Except.ok s1)) p from rfl]
      rw [hskel, hds]
    unfold dsetCore at hds1
    cases hl : lookupObj s1 p with
    | none => rw [hl] at hds1; exact absurd hds1 (by simp)
    | some o => exact ⟨o, rfl⟩
  constructor
  · intro hfd
    refine ⟨s1, ?_, ?_, hrefs⟩
    · unfold writeLabelsBranch
      rw [hd]
      simp only [hok1, hfirst, hfd]
    · exact writeRegionRefs_key_preserved p d.shape "labels" p regions s s1
        hok1 hnolab
  · intro dimen hfd hall hpair
    have hlenrep : (List.replicate regions.length (none : Option String)).length
        = regions.length := List.length_replicate _ _
    have hall2 : regions.all (startOk dimen
        (List.replicate regions.length (none : Option String)).length) = true := by
      rw [hlenrep]
      exact hall
    obtain ⟨hs, hb, hlen⟩ := buildHeaders_ok dimen regions _ hall2
    have hplace := buildHeaders_placement dimen regions _ hs hb hall2 hpair
    have hfmem : first ∈ regions := by
      cases regions with
      | nil => exact absurd hfirst (by simp)
      | cons a l =>
        simp only [List.head?_cons, Option.some_inj] at hfirst
        rw [hfirst]
        exact List.mem_cons_self first l
    have hfok : startOk dimen regions.length first = true :=
      List.all_eq_true.mp hall first hfmem
    unfold startOk at hfok
    obtain ⟨i0, hi0⟩ : ∃ i0, (first.2.get? dimen).bind PySlice.start = some i0 := by
      cases hg : (first.2.get? dimen).bind PySlice.start with
      | none => rw [hg] at hfok; exact absurd hfok (by simp)
      | some j => exact ⟨j, rfl⟩
    have hsome : ∃ x ∈ hs, x.isSome = true := by
      have hfp := hplace first hfmem i0 hi0
      have hmem := List.get?_mem hfp
      exact ⟨some first.1, hmem, rfl⟩
    have hclean := clean_headerVal hs hsome
    refine ⟨setAttrAt s1 p "labels" (.arr1S (hs.map (fun o => o.getD "None"))),
      hs, ?_, hb, by rw [hlen, hlenrep], ?_, hplace, ?_⟩
    · unfold writeLabelsBranch
      rw [hd]
      simp only [hok1, hfirst, hfd, hb, hclean]
    · obtain ⟨o1, ho1⟩ := hobj1
      exact attrAt_setAttrAt_self s1 p "labels" _ o1 ho1
    · intro r hr
      have hne : r.1 ≠ "labels" := by
        intro he
        exact hnolab (List.mem_map.mpr ⟨r, hr, he⟩)
      rw [attrAt_setAttrAt_ne s1 p p "labels" r.1 _ hne]
      exact hrefs r hr

/-- The spec's own example regions: `A` pins rows 0 to 1, `B` pins rows 1
to 2, both over all columns. -/
def abRegions : List (String × List PySlice) :=
  [("A", [⟨some 0, some 1⟩, ⟨none, none⟩]),
   ("B", [⟨some 1, some 2⟩, ⟨none, none⟩])]

/-- Witness for claim C5 (amended): on the spec's example, the written
`labels` header equals the ordered list of names `A`, `B`, and both
region-reference attributes exist. -/
theorem writeLabels_scans_first_region_witness :
    attrAt (storeOfU (writeLabelsBranch ["ds"] abRegions labStore))
      ["ds"] "labels" = some (.arr1S ["A", "B"]) ∧
    attrAt (storeOfU (writeLabelsBranch ["ds"] abRegions labStore))
      ["ds"] "A" = some (.regionRef ["ds"] [⟨some 0, some 1⟩, ⟨none, none⟩]) ∧
    attrAt (storeOfU (writeLabelsBranch ["ds"] abRegions labStore))
      ["ds"] "B" = some (.regionRef ["ds"] [⟨some 1, some 2⟩, ⟨none, none⟩]) := by
  obtain ⟨sOut, hs, hok, hb, hlen, hlab, hplace, hrefs⟩ :=
    (writeLabels_scans_first_region ["ds"] labDset labStore rfl abRegions
      ("A", [⟨some 0, some 1⟩, ⟨none, none⟩]) rfl (by decide) (by decide)
      (by decide)).2 0 rfl (by decide) (by decide)
  have hhs : hs = [some "A", some "B"] :=
    Except.ok.inj ((rfl :
      buildHeaders abRegions 0 (List.replicate abRegions.length none)
        = .ok [some "A", some "B"]).symm.trans hb).symm
  subst hhs
  rw [hok]
  refine ⟨hlab, ?_, ?_⟩
  · exact hrefs ("A", [⟨some 0, some 1⟩, ⟨none, none⟩]) (by simp [abRegions])
  · exact hrefs ("B", [⟨some 1, some 2⟩, ⟨none, none⟩]) (by simp [abRegions])

/-! Section: The tree materializer (`HDFwriter.write` and its `__populate`) -/

/-- Modelled from the spec: the writer's semantic version string.  The
`__version__` module is not under the sources; the exact value is
irrelevant to every claim. -/
def pycroscopyVersionString : String := "0.0.0"

/-- The version stamp `h5_file.attrs['Pycroscopy version'] = version` that
`write` performs first (hdf_writer.py line 169), before any validation. -/
def stampVersion (s : Store) : Store :=
  setAttrAt s [] "Pycroscopy version" (.str pycroscopyVersionString)

/-- The dynamic argument of `write`: either a descriptor node, or any
other python object, which fails the `isinstance(data, MicroData)`
check. -/
inductive PyInput where
  | md (m : MicroData)
  | notMicroData (desc : String)

/-- The root-attributes loop of `write` (lines 189-192): every attribute
of a file-root composite is normalized and stamped onto the file object
(no `None` skip here, unlike groups; h5py rejects a `None` value, and a
labels dict is the unmodelled numpy dict coercion). -/
def writeFileAttrs (gattrs : List (String × MAttr)) (s : Store) :
    Except (Err × Store) Store :=
  match gattrs with
  | [] => .ok s
  | (k, v) :: rest =>
    match v with
    | .plain a =>
      match clean a with
      | .error e => .error (e, s)
      | .ok .noneV => .error (.noneFileAttr, s)
      | .ok c => writeFileAttrs rest (setAttrAt s [] k c)
    | .labels _ => .error (.dictValuedAttr, s)

/-- The recursive `__populate` of `HDFwriter.write` (hdf_writer.py lines
203-237), processed over the list of pending sibling subtrees with the
shared `ref_list` accumulator made explicit.  Each child's stored parent
path is overwritten by the traversal, so only the resolved parent passed
down matters.  A composite child is created (resolving its auto-index
name), its children are populated under the resolved path, and only then
is its own handle appended — the code's `ref_list.append(h5_obj)` sits
after the recursive loop; a leaf child is materialized and its handle
appended.  The `fuel` counter pays for recursion depth and sibling steps;
any terminating python run corresponds to a large enough fuel, and
exhaustion is a distinguished error the python code never produces. -/
def populateL (fuel : Nat) (cs : List MicroData) (parent : Path) (s : Store)
    (acc : List Path) : Except (Err × Store) (Store × List Path) :=
  match cs with
  | [] => .ok (s, acc)
  | c :: rest =>
    match fuel with
    | 0 => .error (.fuelOut, s)
    | fuel' + 1 =>
      match lookupObj s parent with
      | none => .error (.keyError, s)
      | some _ =>
        match c with
        | .dst d =>
          match createDataset parent d s with
          | .error es => .error es
          | .ok (s1, h) => populateL fuel' rest parent s1 (acc ++ [h])
        | .grp gname _ gattrs idx children =>
          match createGroup parent gname gattrs idx s with
          | .error es => .error es
          | .ok (s1, resolved) =>
            match populateL fuel' children (parent ++ [resolved]) s1 [] with
            | .error es => .error es
            | .ok (s2, inner) =>
              populateL fuel' rest parent s2
                (acc ++ inner ++ [parent ++ [resolved]])

/-- Model of `HDFwriter.write` (hdf_writer.py lines 149-243): the version
stamp comes first, then the `isinstance` check raises `TypeError` for
non-descriptor input; a lone leaf is materialized under its declared
parent (a missing parent is a `ValueError`); a composite that denotes the
file root (empty name, root parent) has its attributes written to the file
object and its children populated under the root, while any other
composite is first created under its declared parent and its children are
populated under the resolved path; the handle list accumulated by
`__populate` is returned (the root composite's own handle is never
appended to it). -/
def write (fuel : Nat) (inp : PyInput) (s : Store) :
    Except (Err × Store) (Store × List Path) :=
  let s1 := stampVersion s
  match inp with
  | .notMicroData _ => .error (.typeError, s1)
  | .md (.dst d) =>
    match lookupObj s1 d.parent with
    | none => .error (.missingParent, s1)
    | some _ =>
      match createDataset d.parent d s1 with
      | .error es => .error es
      | .ok (s2, h) => .ok (s2, [h])
  | .md (.grp gname gparent gattrs idx children) =>
    if gname = "" ∧ gparent = [] then
      match writeFileAttrs gattrs s1 with
      | .error es => .error es
      | .ok s2 => populateL fuel children [] s2 []
    else
      match lookupObj s1 gparent with
      | none => .error (.keyError, s1)
      | some _ =>
        match createGroup gparent gname gattrs idx s1 with
        | .error es => .error es
        | .ok (s2, resolved) =>
          populateL fuel children (gparent ++ [resolved]) s2 []

/-! Section: Claim C7: the type check and the prior version stamp -/

/-- Claim C7 (counterexample): the claim says a non-descriptor input
raises the fatal type error with no partial work performed on the store.
The code stamps the `Pycroscopy version` attribute on the file before the
`isinstance` check, so the store that the raise leaves behind differs from
the input store: the stamp is visible on the root. -/
theorem write_type_error_counterexample :
    write 9 (.notMicroData "int") rootOnlyStore
      = .error (.typeError, stampVersion rootOnlyStore) ∧
    attrAt rootOnlyStore [] "Pycroscopy version" = none ∧
    attrAt (stampVersion rootOnlyStore) [] "Pycroscopy version"
      = some (.str pycroscopyVersionString) :=
  ⟨rfl, rfl, rfl⟩

/-- Claim C7 (amended): for every non-descriptor input, `write` raises the
fatal type error immediately, creating no group or dataset (the set of
object paths is unchanged) — but only after stamping the writer version
attribute on the store's root object, so exactly that one root-attribute
mutation has been performed when the error propagates. -/
theorem write_type_error_stamps_version (fuel : Nat) (x : String)
    (s : Store) :
    write fuel (.notMicroData x) s = .error (.typeError, stampVersion s) ∧
    objPaths (stampVersion s) = objPaths s :=
  ⟨rfl, objPaths_setAttrAt s [] "Pycroscopy version"
    (.str pycroscopyVersionString)⟩

/-! Section: Claim C1: the order of the returned handle list -/

/-- Strict ancestor relation on store paths. -/
def properAncestor (p q : Path) : Bool := p.isPrefixOf q && p != q

/-- Decidable form of the claim's pre-order contract: whenever one handle
in the list is a strict ancestor path of another, the ancestor appears
strictly earlier. -/
def specPreOrderB (refs : List Path) : Bool :=
  (List.range refs.length).all (fun i =>
    (List.range refs.length).all (fun j =>
      match refs.get? i, refs.get? j with
      | some p, some q => !(properAncestor p q) || decide (i < j)
      | _, _ => true))

/-- The post-order shape of the handle list produced for one subtree: a
leaf contributes exactly its own handle, and a composite contributes, for
some resolved name under its parent, the concatenation of its children's
contributions in input order followed by its own handle last. -/
inductive RefsPostOrder : MicroData → Path → List Path → Prop where
  | leaf : ∀ (d : MicroDset) (parent : Path),
      RefsPostOrder (.dst d) parent [parent ++ [d.name]]
  | node : ∀ (gname : String) (mp : Path) (gattrs : List (String × MAttr))
      (idx : Bool) (children : List MicroData) (parent : Path)
      (resolved : String) (parts : List (List Path)),
      children.length = parts.length →
      (∀ (i : Nat) (h1 : i < children.length) (h2 : i < parts.length),
        RefsPostOrder (children.get ⟨i, h1⟩) (parent ++ [resolved])
          (parts.get ⟨i, h2⟩)) →
      RefsPostOrder (.grp gname mp gattrs idx children) parent
        (parts.join ++ [parent ++ [resolved]])

theorem createDataset_ok_handle (parent : Path) (md : MicroDset)
    (s s1 : Store) (h : Path)
    (hok : createDataset parent md s = .ok (s1, h)) :
    h = parent ++ [md.name] := by
  unfold createDataset at hok
  split at hok
  · split at hok
    · exact Except.noConfusion hok
    · split at hok
      · exact Except.noConfusion hok
      · split at hok
        · exact Except.noConfusion hok
        · have h2 := Except.ok.inj hok
          exact (congrArg Prod.snd h2).symm
  · exact Except.noConfusion hok

theorem populateL_postorder : ∀ (fuel : Nat) (cs : List MicroData)
    (parent : Path) (s : Store) (acc : List Path) (s' : Store)
    (refs : List Path),
    populateL fuel cs parent s acc = .ok (s', refs) →
    ∃ parts : List (List Path), refs = acc ++ parts.join ∧
      cs.length = parts.length ∧
      ∀ (i : Nat) (h1 : i < cs.length) (h2 : i < parts.length),
        RefsPostOrder (cs.get ⟨i, h1⟩) parent (parts.get ⟨i, h2⟩) := by
  intro fuel
  induction fuel with
  | zero =>
    intro cs parent s acc s' refs hok
    cases cs with
    | nil =>
      have h2 := Except.ok.inj hok
      have hra : acc = refs := congrArg Prod.snd h2
      refine ⟨[], ?_, rfl, fun i h1 _ => absurd h1 (by simp)⟩
      rw [← hra]
      simp
    | cons c rest => exact Except.noConfusion hok
  | succ fuel ih =>
    intro cs parent s acc s' refs hok
    cases cs with
    | nil =>
      have h2 := Except.ok.inj hok
      have hra : acc = refs := congrArg Prod.snd h2
      refine ⟨[], ?_, rfl, fun i h1 _ => absurd h1 (by simp)⟩
      rw [← hra]
      simp
    | cons c rest =>
      cases c with
      | dst d =>
        have hok2 : ((match lookupObj s parent with
          | none => Except.error ((Err.keyError, s) : Err × Store)
          | some _ =>
            match createDataset parent d s with
            | .error es => .error es
            | .ok (s1, h) => populateL fuel rest parent s1 (acc ++ [h])) :
            Except (Err × Store) (Store × List Path)) = .ok (s', refs) := hok
        clear hok
        split at hok2
        · exact Except.noConfusion hok2
        · split at hok2
          · exact Except.noConfusion hok2
          · rename_i s1 h hcd
            have hh : h = parent ++ [d.name] :=
              createDataset_ok_handle parent d s s1 h hcd
            obtain ⟨parts, hrefs, hlenp, hpost⟩ := ih rest parent s1
              (acc ++ [h]) s' refs hok2
            refine ⟨[h] :: parts, ?_, by simp [hlenp], ?_⟩
            · simp [hrefs]
            · intro i h1 h2
              cases i with
              | zero =>
                simp only [List.get]
                rw [hh]
                exact RefsPostOrder.leaf d parent
              | succ j =>
                exact hpost j (by simpa using h1) (by simpa using h2)
      | grp gname mp gattrs idx children =>
        have hok2 : ((match lookupObj s parent with
          | none => Except.error ((Err.keyError, s) : Err × Store)
          | some _ =>
            match createGroup parent gname gattrs idx s with
            | .error es => .error es
            | .ok (s1, resolved) =>
              match populateL fuel children (parent ++ [resolved]) s1 [] with
              | .error es => .error es
              | .ok (s2, inner) =>
                populateL fuel rest parent s2
                  (acc ++ inner ++ [parent ++ [resolved]])) :
            Except (Err × Store) (Store × List Path)) = .ok (s', refs) := hok
        clear hok
        split at hok2
        · exact Except.noConfusion hok2
        · split at hok2
          · exact Except.noConfusion hok2
          · rename_i s1 resolved hcg
            split at hok2
            · exact Except.noConfusion hok2
            · rename_i s2 inner hpop
              obtain ⟨partsC, hinner, hlenC, hpostC⟩ := ih children
                (parent ++ [resolved]) s1 [] s2 inner hpop
              obtain ⟨parts, hrefs, hlenp, hpost⟩ := ih rest parent s2
                (acc ++ inner ++ [parent ++ [resolved]]) s' refs hok2
              refine ⟨(inner ++ [parent ++ [resolved]]) :: parts, ?_,
                by simp [hlenp], ?_⟩
              · simp [hrefs]
              · intro i h1 h2
                cases i with
                | zero =>
                  simp only [List.get]
                  rw [hinner]
                  simp only [List.nil_append]
                  exact RefsPostOrder.node gname mp gattrs idx children
                    parent resolved partsC hlenC hpostC
                | succ j =>
                  exact hpost j (by simpa using h1) (by simpa using h2)

/-- Claim C1 (amended): `write` on a composite descriptor returns the
handles of the root's descendants (the root composite's own handle is not
appended), arranged as one block per top-level child in input order,
where each block is in strict post-order: every composite's handle
appears after the handles of all of its descendants, immediately closing
its block, and sibling subtrees keep the input order. -/
theorem write_returns_postorder (fuel : Nat) (gname : String)
    (gparent : Path) (gattrs : List (String × MAttr)) (idx : Bool)
    (children : List MicroData) (s s' : Store) (refs : List Path)
    (hok : write fuel (.md (.grp gname gparent gattrs idx children)) s
      = .ok (s', refs)) :
    ∃ (root : Path) (parts : List (List Path)),
      refs = parts.join ∧ children.length = parts.length ∧
      ∀ (i : Nat) (h1 : i < children.length) (h2 : i < parts.length),
        RefsPostOrder (children.get ⟨i, h1⟩) root (parts.get ⟨i, h2⟩) := by
  have hok2 : ((if gname = "" ∧ gparent = [] then
      match writeFileAttrs gattrs (stampVersion s) with
      | .error es => .error es
      | .ok s2 => populateL fuel children [] s2 []
    else
      match lookupObj (stampVersion s) gparent with
      | none => Except.error ((Err.keyError, stampVersion s) : Err × Store)
      | some _ =>
        match createGroup gparent gname gattrs idx (stampVersion s) with
        | .error es => .error es
        | .ok (s2, resolved) =>
          populateL fuel children (gparent ++ [resolved]) s2 []) :
      Except (Err × Store) (Store × List Path)) = .ok (s', refs) := hok
  clear hok
  split at hok2
  · split at hok2
    · exact Except.noConfusion hok2
    · rename_i s2 hfa
      obtain ⟨parts, hrefs, hlen, hpost⟩ := populateL_postorder fuel children
        [] s2 [] s' refs hok2
      exact ⟨[], parts, by simpa using hrefs, hlen, hpost⟩
  · split at hok2
    · exact Except.noConfusion hok2
    · split at hok2
      · exact Except.noConfusion hok2
      · rename_i s2 resolved hcg
        obtain ⟨parts, hrefs, hlen, hpost⟩ := populateL_postorder fuel
          children (gparent ++ [resolved]) s2 [] s' refs hok2
        exact ⟨gparent ++ [resolved], parts, by simpa using hrefs, hlen,
          hpost⟩

/-- The leaf descriptor `D` of the pre-order counterexample tree. -/
def dDescr : MicroDset :=
  { name := "D", parent := [], data := some ⟨[1], "i8", [0]⟩, dtype := none,
    compression := none, chunking := none, resizable := false,
    maxshape := none, attrs := [] }

/-- Claim C1 (counterexample): writing the file-root composite holding one
group `G` that holds one dataset `D` returns the handle list with `D`
first and its parent `G` last — the parent group's handle appears after
its descendant's, so the returned list is not in strict pre-order. -/
theorem write_preorder_counterexample :
    (write 9 (.md (.grp "" [] [] false
      [.grp "G" [] [] false [.dst dDescr]])) rootOnlyStore).map Prod.snd
      = .ok [["G", "D"], ["G"]] ∧
    specPreOrderB [["G", "D"], ["G"]] = false :=
  ⟨rfl, rfl⟩

/-- Witness for claim C1 (amended): the concrete two-node tree above
satisfies the post-order characterization. -/
theorem write_returns_postorder_witness :
    ∃ (root : Path) (parts : List (List Path)),
      ([["G", "D"], ["G"]] : List Path) = parts.join ∧
      ([MicroData.grp "G" [] [] false [.dst dDescr]]).length = parts.length ∧
      ∀ (i : Nat) (h1 : i < ([MicroData.grp "G" [] [] false
          [.dst dDescr]]).length) (h2 : i < parts.length),
        RefsPostOrder (([MicroData.grp "G" [] [] false
          [.dst dDescr]]).get ⟨i, h1⟩) root (parts.get ⟨i, h2⟩) :=
  write_returns_postorder 9 "" [] [] false
    [.grp "G" [] [] false [.dst dDescr]] rootOnlyStore
    (storeOfW (write 9 (.md (.grp "" [] [] false
      [.grp "G" [] [] false [.dst dDescr]])) rootOnlyStore))
    [["G", "D"], ["G"]] rfl

end Pycroscopy
